import Mathlib

/-!
# eufylife-prometheus-exporter: the session, the fetch cycle and the renderer

A shallow embedding of `main.go`.  The program keeps one session record
(`config`), logs in to the upstream API (`auth`), fetches the newest data point
of every listed device (`getLatestData`) and writes one text line per metric on
`/metrics`.

Conventions of the embedding.

* Go `error` values are their message (`String`); `Option String` is an `error`
  that may be `nil`.
* What the outside world answers is an argument: the reply of every HTTP call,
  the clock reading of every `time.Now().Unix()` and the result of every
  `saveConfig`.  What the program does to the outside world is returned as a list
  of `Effect`s, in program order.
* A pointer that the source compares with `nil` is an `Option`
  (`deviceData.Data[0]`).  A pointer decoded from JSON that the source dereferences
  unconditionally (`device.ID`, `datum.ScaleData` in the handler) is the value it
  points to: a `null` there crashes the request and is outside the embedding.
* The source discards the error of `http.NewRequest` and uses the request: when
  the URL does not parse the request is nil and the call panics.  That outcome is
  `panicked`: nothing is returned and the HTTP server drops the connection.
* `int64` values are `Int`; the one place that computes with them (`auth`) wraps
  explicitly.
-/

namespace Eufylife

/-! ## Constants -/

def eufyClientId : String := "eufy-app"
def eufyClientSecret : String := "8FHf22gaTKu7MZXqz5zytw"
def eufyAPIBase : String := "https://home-api.eufylife.com/v1/"
def configPath : String := "config.json"

def metricNames : List String :=
  ["bmi", "bmr", "body_age", "body_fat", "body_fat_mass", "bone", "bone_mass",
   "muscle", "muscle_mass", "protein_ratio", "visceral_fat", "water", "weight"]

/-! ## Values decoded from JSON and their `%v` text -/

/-- A finite `float64`, given by the shortest decimal digit string that identifies
it (the `decimalSlice` of `strconv`): the value is `0.d₁d₂…dₙ × 10^dp`, negated
when `neg`.  Zero has no digits and `dp = 0`. -/
structure float64 where
  neg : Bool
  digits : List Nat
  dp : Int

/-- What `json.Unmarshal` stores in an `interface{}`. -/
inductive Value where
  | null
  | bool (b : Bool)
  | number (f : float64)
  | string (s : String)
  | array (xs : List Value)
  | object (fields : List (String × Value))

def digitChar (d : Nat) : Char := Char.ofNat (48 + d % 10)

def digitsText (ds : List Nat) : String := String.mk (ds.map digitChar)

def zeros (n : Nat) : String := String.mk (List.replicate n '0')

/-- The `%e` layout of `strconv` at the shortest precision: `d.ddde±dd`. -/
def fmtE (neg : Bool) (digits : List Nat) (dp : Int) : String :=
  let sign := if neg then "-" else ""
  let first := match digits with
    | [] => "0"
    | d :: _ => digitsText [d]
  let more := if digits.length ≤ 1 then "" else "." ++ digitsText digits.tail
  let exp : Int := if digits.length = 0 then 0 else dp - 1
  let esign := if exp < 0 then "-" else "+"
  let e := exp.natAbs
  let etext :=
    if e < 10 then digitsText [0, e]
    else if e < 100 then digitsText [e / 10, e % 10]
    else digitsText [e / 100, e / 10 % 10, e % 10]
  sign ++ first ++ more ++ "e" ++ esign ++ etext

/-- The `%f` layout of `strconv` at the shortest precision. -/
def fmtF (neg : Bool) (digits : List Nat) (dp : Int) : String :=
  let sign := if neg then "-" else ""
  let nd := digits.length
  let whole :=
    if 0 < dp then
      let m := min nd dp.toNat
      digitsText (digits.take m) ++ zeros (dp.toNat - m)
    else "0"
  let prec := ((nd : Int) - dp).toNat
  let frac :=
    if 0 < prec then
      "." ++ digitsText ((List.range prec).map fun i =>
        let j := dp + i
        if 0 ≤ j ∧ j < nd then digits.getD j.toNat 0 else 0)
    else ""
  sign ++ whole ++ frac

/-- The text of `%v` for a `float64`: `%g` with the shortest precision, which is
`%e` when the decimal exponent is below `-4` or at least `6` (the shortest mode
uses `6` for this decision), `%f` otherwise. -/
def float64.fmt (f : float64) : String :=
  let exp := f.dp - 1
  if exp < -4 ∨ 6 ≤ exp then fmtE f.neg f.digits f.dp else fmtF f.neg f.digits f.dp

/-- Go prints a map with its keys sorted. -/
def sortFields (fs : List (String × String)) : List (String × String) :=
  fs.insertionSort fun a b => a.1 ≤ b.1

mutual
/-- The text of `%v` for a decoded JSON value. -/
def Value.fmt : Value → String
  | .null => "<nil>"
  | .bool b => if b then "true" else "false"
  | .number f => f.fmt
  | .string s => s
  | .array xs => "[" ++ " ".intercalate (Value.fmtList xs) ++ "]"
  | .object fields =>
    "map[" ++ " ".intercalate ((sortFields (Value.fmtFields fields)).map
      fun kv => kv.1 ++ ":" ++ kv.2) ++ "]"
def Value.fmtList : List Value → List String
  | [] => []
  | v :: vs => v.fmt :: Value.fmtList vs
def Value.fmtFields : List (String × Value) → List (String × String)
  | [] => []
  | (k, v) :: fields => (k, v.fmt) :: Value.fmtFields fields
end

/-- The text of `fmt.Sprintf("%v", m[key])` for an `interface{}` read from a map:
a missing key reads as the nil interface, which prints as `<nil>`. -/
def sprintV : Option Value → String
  | none => "<nil>"
  | some v => v.fmt

/-- The text of `strconv.Itoa`. -/
def Itoa (n : Int) : String :=
  if n < 0 then "-" ++ Nat.repr n.natAbs else Nat.repr n.toNat

/-! ## Data model -/

structure eufyDevice where
  ID : String

/-- A `map[string]interface{}` is read only through lookups, so it is kept as the
list of its fields; `scaleValue` is the lookup. -/
structure eufyDataPoint where
  DeviceID : String
  CreateTime : Int
  UpdateTime : Int
  ScaleData : List (String × Value)

def eufyDataPoint.scaleValue (datum : eufyDataPoint) (metric : String) : Option Value :=
  (datum.ScaleData.find? fun kv => kv.1 = metric).map Prod.snd

/-- A Go `map[string]*eufyDataPoint`: an association list in which a key occurs
once.  `DatumMap.get` is the lookup `m[k]` with its `ok` flag, `DatumMap.set` the
assignment `m[k] = v`. -/
abbrev DatumMap : Type := AList fun _ : String => eufyDataPoint

def DatumMap.get (m : DatumMap) (k : String) : Option eufyDataPoint := m.lookup k

def DatumMap.set (m : DatumMap) (k : String) (v : eufyDataPoint) : DatumMap := m.insert k v

structure config where
  AccessToken : String
  Expires : Int
  Email : String
  Password : String
  LastCheck : Int
  LastDatum : Option DatumMap
  ListenAddr : String

/-- The value of `conf.LastDatum[id]` with its `ok` flag: `none` when the map is
nil or has no such key. -/
def config.datum (conf : config) (id : String) : Option eufyDataPoint :=
  match conf.LastDatum with
  | none => none
  | some m => m.get id

structure authBody where
  ClientID : String
  ClientSecret : String
  Email : String
  Password : String

structure authResponse where
  ResultCode : Int
  Message : String
  AccessToken : String
  ExpiresIn : Int
  Devices : List eufyDevice

structure dataResponse where
  ResultCode : Int
  Message : String
  Data : List (Option eufyDataPoint)

/-! ## The outside world -/

/-- What reading and decoding a response body gives. -/
inductive Body (α : Type) where
  | readError (err : String)
  | parseError (err : String)
  | json (v : α)

/-- What an HTTP call gives: a transport error, or a response with its status. -/
inductive Reply (α : Type) where
  | failed (err : String)
  | response (StatusCode : Int) (body : Body α)

/-- The checks that every call site runs on a reply, in this order: transport
error, status other than 200, unreadable body, undecodable body, result code
(read by `code`) other than 1.  A reply is rejected when one of them fails. -/
def Reply.rejected {α : Type} (code : α → Int) : Reply α → Prop
  | .failed _ => True
  | .response status (.json v) => status ≠ 200 ∨ code v ≠ 1
  | .response _ _ => True

/-- What the program does to the outside world. -/
inductive Effect where
  | post (url : String) (body : authBody)
  | get (url : String) (token : String)
  | writeFile (path : String) (conf : config)

def Effect.isPost : Effect → Bool
  | .post _ _ => true
  | _ => false

/-- An effect of a fetch made with `token`: no login, and a request carries
`token` in its header. -/
def Effect.fetchesWith (token : String) : Effect → Prop
  | .post _ _ => False
  | .get _ t => t = token
  | .writeFile _ _ => True

/-- Two's-complement wrap-around of an `int64` result. -/
def wrapInt64 (x : Int) : Int := (x + 2 ^ 63) % 2 ^ 64 - 2 ^ 63

/-! ## `saveConfig` and `auth` -/

/-- The session is written to `configPath`; `result` is what the write returned. -/
def saveConfig (conf : config) (result : Option String) : Option String × List Effect :=
  (result, [Effect.writeFile configPath conf])

/-- The function `auth`: `reply` answers the login POST, `now` is the clock after
the answer, `save` is the result of the final `saveConfig`.  Returns the session
as `auth` leaves it, the error and the effects. -/
def auth (conf : config) (reply : Reply authResponse) (now : Int) (save : Option String) :
    config × Option String × List Effect :=
  let body : authBody :=
    { ClientID := eufyClientId, ClientSecret := eufyClientSecret,
      Email := conf.Email, Password := conf.Password }
  let post := Effect.post (eufyAPIBase ++ "user/v2/email/login") body
  match reply with
  | .failed err => (conf, some err, [post])
  | .response status b =>
    if status ≠ 200 then (conf, some "non-200 response from API", [post])
    else
      match b with
      | .readError err => (conf, some err, [post])
      | .parseError err => (conf, some err, [post])
      | .json authr =>
        if authr.ResultCode ≠ 1 then
          (conf, some (Itoa authr.ResultCode ++ ": " ++ authr.Message), [post])
        else
          let expiry := wrapInt64 (wrapInt64 (now + authr.ExpiresIn) - 24 * 60 * 60)
          let conf1 := { conf with Expires := expiry }
          let conf2 := { conf1 with AccessToken := authr.AccessToken }
          let saved := saveConfig conf2 save
          (conf2, saved.1, post :: saved.2)

/-! ## `getLatestData` -/

/-- The guard `if conf.LastDatum == nil { conf.LastDatum = map[string]*eufyDataPoint{} }`. -/
def config.ensureLastDatum (conf : config) : config :=
  match conf.LastDatum with
  | none => { conf with LastDatum := some (∅ : DatumMap) }
  | some _ => conf

/-- The assignment `conf.LastDatum[id] = datum` (the map is not nil there). -/
def config.setDatum (conf : config) (id : String) (datum : eufyDataPoint) : config :=
  { conf with LastDatum := conf.LastDatum.map fun m => m.set id datum }

/-- The URL of the history call for a device. -/
def historyURL (id : String) (after : Int) : String :=
  eufyAPIBase ++ "device/" ++ id ++ "/data?after=" ++ Itoa after

/-! ### Building a request

`http.NewRequest("GET", url, nil)` fails only when `url.Parse` fails.  For a URL
that starts with `eufyAPIBase` the scheme and the host always parse, and what is
left of `url.Parse` is: no control character before the first `#`, and complete
`%XX` escapes in the path (up to the first `?`) and in the fragment (after the
first `#`). -/

/-- A control character, as `stringContainsCTLByte` of `net/url` tests it. -/
def isCTL (c : Char) : Bool := c.toNat < 32 || c.toNat == 127

/-- A hexadecimal digit, the `ishex` of `net/url`. -/
def ishex (c : Char) : Bool :=
  c.isDigit || (97 ≤ c.toNat && c.toNat ≤ 102) || (65 ≤ c.toNat && c.toNat ≤ 70)

/-- Every `%` is followed by two hexadecimal digits (`unescape` of `net/url`
returns no `EscapeError`). -/
def validEscapes : List Char → Bool
  | [] => true
  | c :: rest =>
    if c = '%' then
      match rest with
      | a :: b :: rest2 => ishex a && ishex b && validEscapes rest2
      | _ => false
    else validEscapes rest

/-- Whether `url.Parse` accepts a URL that starts with `eufyAPIBase`, that is,
whether `http.NewRequest` returns a request for it. -/
def urlParses (rawURL : String) : Bool :=
  let u := rawURL.toList.takeWhile fun c => c != '#'
  let frag := (rawURL.toList.dropWhile fun c => c != '#').drop 1
  let path := u.takeWhile fun c => c != '?'
  !u.any isCTL && validEscapes path && validEscapes frag

/-- A character of the text of `strconv.Itoa`: a decimal digit or the sign. -/
def isDecimal (c : Char) : Bool := (48 ≤ c.toNat && c.toNat ≤ 57) || c.toNat == 45

/-- How one pass through the loop body ends: the loop goes on to the next device,
`getLatestData` returns `nil, err`, or the pass panics. -/
inductive Flow where
  | next
  | fail (err : String)
  | panicked

/-- The statement `if err := saveConfig(conf); err != nil { return nil, err }`. -/
def Flow.ofError : Option String → Flow
  | none => .next
  | some err => .fail err

/-- One pass through the body of the `for _, device := range devicesBody.Devices`
loop: `reply` answers the history call, `now` is the clock read when a new data
point is stored and `save` the result of the `saveConfig` that follows.  When the
URL of the history call does not parse, `req` is nil and `req.Header.Set` panics
before any request is sent. -/
def forDevice (conf : config) (device : eufyDevice) (reply : Reply dataResponse) (now : Int)
    (save : Option String) : config × Flow × List Effect :=
  if urlParses (historyURL device.ID conf.LastCheck) = false then (conf, .panicked, [])
  else
    let req := Effect.get (historyURL device.ID conf.LastCheck) conf.AccessToken
    match reply with
    | .failed err => (conf, .fail err, [req])
    | .response status b =>
      if status ≠ 200 then (conf, .fail "non-200 status code for device listing", [req])
      else
        match b with
        | .readError err => (conf, .fail err, [req])
        | .parseError err => (conf, .fail err, [req])
        | .json deviceData =>
          if deviceData.ResultCode ≠ 1 then
            (conf, .fail (Itoa deviceData.ResultCode ++ ": " ++ deviceData.Message), [req])
          else
            let picked : config × Option eufyDataPoint × Bool :=
              if deviceData.Data.length < 1 then
                let conf1 := conf.ensureLastDatum
                (conf1, conf1.datum device.ID, true)
              else
                (conf, deviceData.Data.headD none, false)
            match picked with
            | (conf1, none, _) => (conf1, .next, [req])
            | (conf1, some datum, reused) =>
              if !reused then
                let conf2 := conf1.ensureLastDatum.setDatum device.ID datum
                let conf3 := { conf2 with LastCheck := now }
                let saved := saveConfig conf3 save
                (conf3, Flow.ofError saved.1, req :: saved.2)
              else (conf1, .next, [req])

/-- What the upstream API, the clock and the file system answer during one call
of `getLatestData`: the reply to the device listing and, for the device at
position `i` of that listing, the reply to its history call, the clock reading
and the result of the save. -/
structure FetchEnv where
  devices : Reply authResponse
  history : Nat → Reply dataResponse
  now : Nat → Int
  save : Nat → Option String

/-- The loop over the listed devices, from position `i` on. -/
def forDevices (env : FetchEnv) : Nat → List eufyDevice → config →
    config × Flow × List Effect
  | _, [], conf => (conf, .next, [])
  | i, device :: rest, conf =>
    match forDevice conf device (env.history i) (env.now i) (env.save i) with
    | (conf1, .fail err, effects) => (conf1, .fail err, effects)
    | (conf1, .panicked, effects) => (conf1, .panicked, effects)
    | (conf1, .next, effects) =>
      match forDevices env (i + 1) rest conf1 with
      | (conf2, flow, effects2) => (conf2, flow, effects ++ effects2)

/-- What a call of `getLatestData` gives: `error err` for the returned pair
`nil, err`, `ok m` for the returned pair `m, nil` (where `m` may be the nil map),
`panicked` when the call panics and returns nothing. -/
inductive Fetched where
  | error (err : String)
  | ok (data : Option DatumMap)
  | panicked

/-- The function `getLatestData`.  Returns the session as the call leaves it, what
the call gives and the effects. -/
def getLatestData (conf : config) (env : FetchEnv) :
    config × Fetched × List Effect :=
  if urlParses (eufyAPIBase ++ "device") = false then (conf, .panicked, [])
  else
    let req := Effect.get (eufyAPIBase ++ "device") conf.AccessToken
    match env.devices with
    | .failed err => (conf, .error err, [req])
    | .response status b =>
      if status ≠ 200 then (conf, .error "non-200 status code for device listing", [req])
      else
        match b with
        | .readError err => (conf, .error err, [req])
        | .parseError err => (conf, .error err, [req])
        | .json devicesBody =>
          if devicesBody.ResultCode ≠ 1 then
            (conf, .error (Itoa devicesBody.ResultCode ++ ": " ++ devicesBody.Message), [req])
          else
            match forDevices env 0 devicesBody.Devices conf with
            | (conf1, .fail err, effects) => (conf1, .error err, req :: effects)
            | (conf1, .panicked, effects) => (conf1, .panicked, req :: effects)
            | (conf1, .next, effects) => (conf1, .ok conf1.LastDatum, req :: effects)

/-! ## The `/metrics` handler and `main` -/

/-- One `w.Write` of the handler: the arguments of the `Sprintf`. -/
structure MetricLine where
  metric : String
  deviceID : String
  email : String
  value : String

/-- The bytes written, in the layout of the format string of the `Sprintf`: the
metric name after `eufylife_`, the labels `deviceID` and `email` in braces, a
blank, the value and a line feed. -/
def MetricLine.text (l : MetricLine) : String :=
  "eufylife_" ++ l.metric ++ "\x7bdeviceID=\"" ++ l.deviceID ++ "\",email=\"" ++ l.email ++
    "\"\x7d " ++ l.value ++ "\n"

/-- The inner loop `for _, metric := range metricNames` for one map entry. -/
def deviceLines (email deviceID : String) (datum : eufyDataPoint) : List MetricLine :=
  metricNames.filterMap fun metric =>
    let value := sprintV (datum.scaleValue metric)
    if value = "0" then none
    else some { metric := metric, deviceID := deviceID, email := email, value := value }

/-- The outer loop `for deviceID, datum := range data`, over the entries in the
order in which the map hands them out. -/
def renderEntries (email : String) (entries : List (Σ _ : String, eufyDataPoint)) :
    List MetricLine :=
  entries.flatMap fun e => deviceLines email e.1 e.2

/-- The order in which `range` walks a map is not fixed by Go: any order of the
entries can come out. -/
def IsRange (range : DatumMap → List (Σ _ : String, eufyDataPoint)) : Prop :=
  ∀ m, (range m).Perm m.entries

/-- The walk `for deviceID, datum := range data`: a nil map has no entries. -/
def rangeOver (range : DatumMap → List (Σ _ : String, eufyDataPoint)) :
    Option DatumMap → List (Σ _ : String, eufyDataPoint)
  | none => []
  | some m => range m

/-- What a scrape leaves: the session, the status of the response (`0` when the
handler panics and the server drops the connection without a response), the
writes to the response and the effects. -/
structure Scrape where
  conf : config
  status : Nat
  writes : List MetricLine
  effects : List Effect

/-- The response body. -/
def Scrape.body (s : Scrape) : String := String.join (s.writes.map MetricLine.text)

/-- The closure registered for `/metrics`, run on the session `conf`. -/
def metricsHandler (conf : config) (env : FetchEnv)
    (range : DatumMap → List (Σ _ : String, eufyDataPoint)) : Scrape :=
  match getLatestData conf env with
  | (conf1, .error _, effects) =>
    { conf := conf1, status := 500, writes := [], effects := effects }
  | (conf1, .ok data, effects) =>
    { conf := conf1, status := 200,
      writes := renderEntries conf1.Email (rangeOver range data), effects := effects }
  | (conf1, .panicked, effects) =>
    { conf := conf1, status := 0, writes := [], effects := effects }

/-- How `main` ends before the server runs: `log.Fatal` or the listening server
that holds the session. -/
inductive Startup where
  | fatal (err : String)
  | listening (conf : config)

/-- The function `main` up to `http.ListenAndServe`: `load` is what `loadConfig`
returned, `now` the clock of the token check, and `login`, `authNow`, `save` are
the arguments of the `auth` call, if there is one. -/
def main (load : Except String config) (now : Int) (login : Reply authResponse)
    (authNow : Int) (save : Option String) : Startup × List Effect :=
  match load with
  | .error err => (.fatal err, [])
  | .ok conf =>
    if conf.AccessToken = "" ∨ now ≥ conf.Expires then
      match auth conf login authNow save with
      | (_, some err, effects) => (.fatal err, effects)
      | (conf1, none, effects) => (.listening conf1, effects)
    else (.listening conf, [])

/-! ## Sample inputs

Concrete sessions and answers of the outside world, used to run the definitions
above. -/

/-- The reading 70.5. -/
def weight705 : Value := .number { neg := false, digits := [7, 0, 5], dp := 2 }

/-- The reading 0. -/
def zero : Value := .number { neg := false, digits := [], dp := 0 }

/-- A data point of device `A` with weight 70.5, a zero `bmi` and no other field. -/
def pointA : eufyDataPoint :=
  { DeviceID := "A", CreateTime := 1700000000, UpdateTime := 1700000000,
    ScaleData := [("weight", weight705), ("bmi", zero)] }

/-- An older data point of device `A`. -/
def pointOld : eufyDataPoint :=
  { DeviceID := "A", CreateTime := 1600000000, UpdateTime := 1600000000,
    ScaleData := [("weight", .number { neg := false, digits := [6, 9], dp := 2 })] }

/-- A session with a token and a nil cache. -/
def freshConf : config :=
  { AccessToken := "tok", Expires := 1000, Email := "me@example.org", Password := "secret",
    LastCheck := 0, LastDatum := none, ListenAddr := "0.0.0.0:8080" }

/-- The same session with `pointOld` cached for device `A`. -/
def cachedConf : config :=
  { freshConf with LastDatum := some ((∅ : DatumMap).set "A" pointOld) }

/-- The same session without a token. -/
def noTokenConf : config := { freshConf with AccessToken := "" }

/-- An accepted device listing. -/
def listing (ids : List String) : Reply authResponse :=
  .response 200 (.json { ResultCode := 1, Message := "", AccessToken := "", ExpiresIn := 0,
                         Devices := ids.map eufyDevice.mk })

/-- An accepted history reply. -/
def history (data : List (Option eufyDataPoint)) : Reply dataResponse :=
  .response 200 (.json { ResultCode := 1, Message := "", Data := data })

/-- Device `A` is listed and answers with the data list `data`; the clock reads
`1700000100` and saves succeed. -/
def envA (data : List (Option eufyDataPoint)) : FetchEnv :=
  { devices := listing ["A"], history := fun _ => history data,
    now := fun _ => 1700000100, save := fun _ => none }

/-- Devices `A` and `B` are listed; `A` answers with `pointA`, `B` with an empty
list. -/
def envAB : FetchEnv :=
  { devices := listing ["A", "B"],
    history := fun i => if i = 0 then history [some pointA] else history [],
    now := fun _ => 1700000100, save := fun _ => none }

/-- Devices `A` and `B` are listed; `A` answers with `pointA`, the history call of
`B` gets a 503. -/
def envBFails : FetchEnv :=
  { devices := listing ["A", "B"],
    history := fun i =>
      if i = 0 then history [some pointA]
      else .response 503 (.json { ResultCode := 0, Message := "unavailable", Data := [] }),
    now := fun _ => 1700000100, save := fun _ => none }

/-- A login answer that grants the token `abc` for 90000 seconds. -/
def loginGranted : Reply authResponse :=
  .response 200 (.json { ResultCode := 1, Message := "", AccessToken := "abc",
                         ExpiresIn := 90000, Devices := [] })


/-- A login answer that refuses the credentials. -/
def loginRefused : Reply authResponse :=
  .response 200 (.json { ResultCode := 0, Message := "bad credentials", AccessToken := "",
                         ExpiresIn := 0, Devices := [] })

/-- A login body with the result code `-3`. -/
def lockedBody : authResponse :=
  { ResultCode := -3, Message := "locked", AccessToken := "", ExpiresIn := 0, Devices := [] }

/-- The login body of `loginGranted`. -/
def grantedBody : authResponse :=
  { ResultCode := 1, Message := "", AccessToken := "abc", ExpiresIn := 90000, Devices := [] }

/-- The cache that holds `pointA` for device `A`. -/
def mapA : DatumMap := (∅ : DatumMap).set "A" pointA

/-- Only device `B` is listed, and it answers with an empty list. -/
def envOnlyB : FetchEnv :=
  { devices := listing ["B"], history := fun _ => history [],
    now := fun _ => 1700000100, save := fun _ => none }

/-- Device `%zz` is listed: the URL of its history call does not parse. -/
def envBadID : FetchEnv :=
  { devices := listing ["%zz"],
    history := fun _ => .response 503 (.json { ResultCode := 0, Message := "", Data := [] }),
    now := fun _ => 1700000100, save := fun _ => none }

/-- The walk of a map in the order of its entries. -/
def inOrder (m : DatumMap) : List (Σ _ : String, eufyDataPoint) := m.entries
/-! ## URLs that parse -/

theorem digitChar_decimal (d : Nat) (h : d < 10) : isDecimal (Nat.digitChar d) = true := by
  interval_cases d <;> decide

theorem toDigitsCore_decimal (fuel : Nat) : ∀ (n : Nat) (ds : List Char),
    (∀ c ∈ ds, isDecimal c = true) →
    ∀ c ∈ Nat.toDigitsCore 10 fuel n ds, isDecimal c = true := by
  induction fuel with
  | zero => intro n ds h; simpa [Nat.toDigitsCore] using h
  | succ fuel ih =>
    intro n ds h
    have hd : isDecimal (Nat.digitChar (n % 10)) = true :=
      digitChar_decimal (n % 10) (Nat.mod_lt _ (by decide))
    have hds : ∀ c ∈ Nat.digitChar (n % 10) :: ds, isDecimal c = true := by
      intro c hc
      rcases List.mem_cons.1 hc with rfl | hc
      · exact hd
      · exact h c hc
    simp only [Nat.toDigitsCore]
    split
    · exact hds
    · exact ih _ _ hds

theorem Itoa_decimal (n : Int) : ∀ c ∈ (Itoa n).toList, isDecimal c = true := by
  have hrepr : ∀ k : Nat, ∀ c ∈ (Nat.repr k).toList, isDecimal c = true := by
    intro k c hc
    exact toDigitsCore_decimal _ _ [] (by simp) c (by simpa [Nat.repr, Nat.toDigits] using hc)
  unfold Itoa
  split
  · intro c hc
    simp only [String.toList, String.data_append, List.mem_append] at hc
    rcases hc with hc | hc
    · have : c = '-' := by simpa using hc
      subst this; decide
    · exact hrepr _ c hc
  · exact hrepr _

theorem decimal_plain (c : Char) (h : isDecimal c = true) :
    (c != '#') = true ∧ (c != '?') = true ∧ isCTL c = false ∧ c ≠ '%' := by
  refine ⟨?_, ?_, ?_, ?_⟩
  · simp only [bne_iff_ne, ne_eq]; rintro rfl; revert h; decide
  · simp only [bne_iff_ne, ne_eq]; rintro rfl; revert h; decide
  · have h2 : (48 ≤ c.toNat ∧ c.toNat ≤ 57) ∨ c.toNat = 45 := by
      simpa [isDecimal] using h
    have h3 : ¬ c.toNat < 32 ∧ ¬ c.toNat = 127 := by omega
    simp [isCTL, h3.1, h3.2]
  · rintro rfl; revert h; decide

theorem validEscapes_plain (cs : List Char) (h : ∀ c ∈ cs, c ≠ '%') : validEscapes cs = true := by
  induction cs with
  | nil => rfl
  | cons c rest ih =>
    have hc : c ≠ '%' := h c (List.mem_cons_self _ _)
    have step : validEscapes (c :: rest) = validEscapes rest := by
      conv_lhs => unfold validEscapes
      simp only [hc, if_false]
    rw [step]
    exact ih fun x hx => h x (List.mem_cons_of_mem _ hx)

theorem takeWhile_append_stop {α : Type} (p : α → Bool) (l2 : List α) :
    ∀ l1 : List α, (∃ x ∈ l1, p x = false) → (l1 ++ l2).takeWhile p = l1.takeWhile p := by
  intro l1
  induction l1 with
  | nil => rintro ⟨x, hx, _⟩; simp at hx
  | cons c rest ih =>
    rintro ⟨x, hx, hpx⟩
    cases hc : p c with
    | false => simp [List.takeWhile, hc]
    | true =>
      have hx2 : x ∈ rest := by
        rcases List.mem_cons.1 hx with h | h
        · rw [h, hc] at hpx; cases hpx
        · exact h
      simp [List.takeWhile, hc, ih ⟨x, hx2, hpx⟩]

/-- A URL made of a part `pre` without `#` and with a `?`, followed by a decimal
number, parses when `pre` has no control character and its path has complete
escapes. -/
theorem urlParses_decimal (pre : String) (after : Int)
    (hsharp : pre.toList.all (fun c => c != '#') = true)
    (hquery : pre.toList.any (fun c => c == '?') = true)
    (hctl : pre.toList.any isCTL = false)
    (hpath : validEscapes (pre.toList.takeWhile fun c => c != '?') = true) :
    urlParses (pre ++ Itoa after) = true := by
  have hD := Itoa_decimal after
  have hD1 : ∀ c ∈ (Itoa after).toList, (c != '#') = true := fun c hc => (decimal_plain c (hD c hc)).1
  have hall : ∀ c ∈ pre.toList ++ (Itoa after).toList, (c != '#') = true := by
    intro c hc
    rcases List.mem_append.1 hc with hc | hc
    · exact List.all_eq_true.1 hsharp c hc
    · exact hD1 c hc
  have hu : ((pre ++ Itoa after).toList.takeWhile fun c => c != '#') =
      pre.toList ++ (Itoa after).toList := by
    simp only [String.toList, String.data_append]
    exact List.takeWhile_eq_self_iff.2 hall
  have hf : ((pre ++ Itoa after).toList.dropWhile fun c => c != '#') = [] := by
    simp only [String.toList, String.data_append]
    exact List.dropWhile_eq_nil_iff.2 hall
  have hp : ((pre.toList ++ (Itoa after).toList).takeWhile fun c => c != '?') =
      pre.toList.takeWhile fun c => c != '?' := by
    obtain ⟨x, hx, hq⟩ := List.any_eq_true.1 hquery
    exact takeWhile_append_stop _ _ _ ⟨x, hx, by simpa using hq⟩
  have hany : (pre.toList ++ (Itoa after).toList).any isCTL = false := by
    rw [List.any_append, hctl, Bool.false_or]
    rw [List.any_eq_false]
    intro c hc
    simp [(decimal_plain c (hD c hc)).2.2.1]
  unfold urlParses
  simp only [hu, hf, hp, hany, hpath, List.drop_nil, validEscapes, Bool.not_false, Bool.and_self]

/-- The URL of the device listing parses. -/
theorem urlParses_listing : urlParses (eufyAPIBase ++ "device") = true := by decide

/-- The history URL of device `A` parses, whatever the watermark. -/
theorem urlParses_A (after : Int) : urlParses (historyURL "A" after) = true :=
  urlParses_decimal (eufyAPIBase ++ "device/" ++ "A" ++ "/data?after=") after
    (by decide) (by decide) (by decide) (by decide)

/-- The history URL of device `B` parses, whatever the watermark. -/
theorem urlParses_B (after : Int) : urlParses (historyURL "B" after) = true :=
  urlParses_decimal (eufyAPIBase ++ "device/" ++ "B" ++ "/data?after=") after
    (by decide) (by decide) (by decide) (by decide)


/-! ## The cache under the two session updates -/

theorem datum_ensureLastDatum (conf : config) (id : String) :
    conf.ensureLastDatum.datum id = conf.datum id := by
  obtain ⟨a, b, c, d, e, m, g⟩ := conf
  cases m with
  | none => simp [config.ensureLastDatum, config.datum, DatumMap.get]
  | some m => rfl

theorem datum_setDatum (conf : config) (k id : String) (v : eufyDataPoint) :
    (conf.ensureLastDatum.setDatum k v).datum id = if id = k then some v else conf.datum id := by
  obtain ⟨a, b, c, d, e, m, g⟩ := conf
  by_cases hk : id = k
  · subst hk
    cases m <;>
      simp only [config.ensureLastDatum, config.setDatum, config.datum, DatumMap.get,
        DatumMap.set, Option.map_some', AList.lookup_insert, if_true]
  · cases m <;>
      simp only [config.ensureLastDatum, config.setDatum, config.datum, DatumMap.get,
        DatumMap.set, Option.map_some', AList.lookup_insert_ne hk, AList.lookup_empty, hk,
        if_false]

/-! ## One pass of the loop body -/

/-- A reply is rejected, or it passes every check and carries a decoded body. -/
theorem reply_cases {α : Type} (code : α → Int) (reply : Reply α) :
    Reply.rejected code reply ∨ ∃ v, reply = .response 200 (.json v) ∧ code v = 1 := by
  cases reply with
  | failed err => exact Or.inl trivial
  | response status b =>
    cases b with
    | readError err => exact Or.inl trivial
    | parseError err => exact Or.inl trivial
    | json v =>
      by_cases hs : status = 200
      · by_cases hc : code v = 1
        · exact Or.inr ⟨v, by rw [hs], hc⟩
        · exact Or.inl (Or.inr hc)
      · exact Or.inl (Or.inl hs)

/-- The loop body on a history reply that passes every check. -/
theorem forDevice_accepted (conf : config) (device : eufyDevice) (r : dataResponse)
    (now : Int) (save : Option String) (hr : r.ResultCode = 1)
    (hb : urlParses (historyURL device.ID conf.LastCheck) = true) :
    forDevice conf device (.response 200 (.json r)) now save =
      match r.Data with
      | [] => (conf.ensureLastDatum, Flow.next,
          [Effect.get (historyURL device.ID conf.LastCheck) conf.AccessToken])
      | none :: _ => (conf, Flow.next,
          [Effect.get (historyURL device.ID conf.LastCheck) conf.AccessToken])
      | some p :: _ =>
        ({ conf.ensureLastDatum.setDatum device.ID p with LastCheck := now },
          Flow.ofError save,
          [Effect.get (historyURL device.ID conf.LastCheck) conf.AccessToken,
           Effect.writeFile configPath
            { conf.ensureLastDatum.setDatum device.ID p with LastCheck := now }]) := by
  unfold forDevice
  simp only [hb, Bool.true_eq_false, hr, ne_eq, not_true_eq_false, if_false]
  cases hd : r.Data with
  | nil =>
    simp only [List.length_nil, Nat.lt_one_iff, if_true]
    cases h : conf.ensureLastDatum.datum device.ID <;> simp
  | cons x rest =>
    cases x <;> simp [saveConfig, config.ensureLastDatum, config.setDatum]

/-- The loop body on a rejected history reply: an error, the session untouched,
nothing written. -/
theorem forDevice_rejected (conf : config) (device : eufyDevice) (reply : Reply dataResponse)
    (now : Int) (save : Option String) (h : Reply.rejected dataResponse.ResultCode reply)
    (hb : urlParses (historyURL device.ID conf.LastCheck) = true) :
    ∃ err, forDevice conf device reply now save =
      (conf, Flow.fail err,
        [Effect.get (historyURL device.ID conf.LastCheck) conf.AccessToken]) := by
  unfold forDevice
  simp only [hb, Bool.true_eq_false, if_false]
  cases reply with
  | failed err => exact ⟨err, rfl⟩
  | response status b =>
    by_cases hs : status = 200
    · cases b with
      | readError err => exact ⟨err, by simp [hs]⟩
      | parseError err => exact ⟨err, by simp [hs]⟩
      | json v =>
        have hc : v.ResultCode ≠ 1 := by
          rcases h with h | h
          · exact absurd hs h
          · exact h
        exact ⟨Itoa v.ResultCode ++ ": " ++ v.Message, by simp [hs, hc]⟩
    · exact ⟨"non-200 status code for device listing", by simp [hs]⟩

/-- The loop body for a device whose history URL does not parse: a panic, the
session untouched, no request. -/
theorem forDevice_unbuilt (conf : config) (device : eufyDevice) (reply : Reply dataResponse)
    (now : Int) (save : Option String)
    (hb : urlParses (historyURL device.ID conf.LastCheck) = false) :
    forDevice conf device reply now save = (conf, Flow.panicked, []) := by
  unfold forDevice
  simp only [hb, if_true]

/-- The three ways of a pass: the request cannot be built, the reply is rejected,
the reply passes every check. -/
theorem forDevice_cases (conf : config) (device : eufyDevice) (reply : Reply dataResponse)
    (now : Int) (save : Option String) :
    (urlParses (historyURL device.ID conf.LastCheck) = false ∧
      forDevice conf device reply now save = (conf, Flow.panicked, [])) ∨
    (urlParses (historyURL device.ID conf.LastCheck) = true ∧
      Reply.rejected dataResponse.ResultCode reply ∧
      ∃ err, forDevice conf device reply now save =
        (conf, Flow.fail err,
          [Effect.get (historyURL device.ID conf.LastCheck) conf.AccessToken])) ∨
    (urlParses (historyURL device.ID conf.LastCheck) = true ∧
      ∃ r, reply = .response 200 (.json r) ∧ r.ResultCode = 1) := by
  cases hb : urlParses (historyURL device.ID conf.LastCheck) with
  | false => exact Or.inl ⟨rfl, forDevice_unbuilt conf device reply now save hb⟩
  | true =>
    rcases reply_cases dataResponse.ResultCode reply with h | h
    · exact Or.inr (Or.inl ⟨rfl, h, forDevice_rejected conf device reply now save h hb⟩)
    · exact Or.inr (Or.inr ⟨rfl, h⟩)

/-- The loop body never touches the account fields. -/
theorem forDevice_frame (conf : config) (device : eufyDevice) (reply : Reply dataResponse)
    (now : Int) (save : Option String) :
    (forDevice conf device reply now save).1.Email = conf.Email ∧
    (forDevice conf device reply now save).1.AccessToken = conf.AccessToken ∧
    (forDevice conf device reply now save).1.Expires = conf.Expires := by
  rcases forDevice_cases conf device reply now save with
    ⟨_, he⟩ | ⟨_, _, err, he⟩ | ⟨hb, r, rfl, hr⟩
  · rw [he]; exact ⟨rfl, rfl, rfl⟩
  · rw [he]; exact ⟨rfl, rfl, rfl⟩
  · rw [forDevice_accepted conf device r now save hr hb]
    obtain ⟨a, b, c, d, e, m, g⟩ := conf
    rcases hd : r.Data with _ | ⟨x, rest⟩
    · cases m <;> exact ⟨rfl, rfl, rfl⟩
    · cases x
      · exact ⟨rfl, rfl, rfl⟩
      · cases m <;> exact ⟨rfl, rfl, rfl⟩

/-- The cache entry of `id` after one pass: it is as before, unless the pass is
for `id`, the reply passes every check and its data list starts with a data
point, which is then the entry. -/
theorem forDevice_datum (conf : config) (device : eufyDevice) (reply : Reply dataResponse)
    (now : Int) (save : Option String) (id : String) :
    (forDevice conf device reply now save).1.datum id = conf.datum id ∨
    (device.ID = id ∧ ∃ r p rest, reply = .response 200 (.json r) ∧ r.ResultCode = 1 ∧
      r.Data = some p :: rest ∧ (forDevice conf device reply now save).1.datum id = some p) := by
  rcases forDevice_cases conf device reply now save with
    ⟨_, he⟩ | ⟨_, _, err, he⟩ | ⟨hb, r, rfl, hr⟩
  · rw [he]; exact Or.inl rfl
  · rw [he]; exact Or.inl rfl
  · rw [forDevice_accepted conf device r now save hr hb]
    rcases hd : r.Data with _ | ⟨x, rest⟩
    · exact Or.inl (datum_ensureLastDatum conf id)
    · cases x with
      | none => exact Or.inl rfl
      | some p =>
        have key : ({ conf.ensureLastDatum.setDatum device.ID p with LastCheck := now } :
            config).datum id = if id = device.ID then some p else conf.datum id :=
          datum_setDatum conf device.ID id p
        by_cases hk : id = device.ID
        · refine Or.inr ⟨hk.symm, r, p, rest, rfl, hr, hd, ?_⟩
          simpa [hk] using key
        · exact Or.inl (by simpa [hk] using key)

/-! ## `auth` on a rejected login -/

/-- A login answer with status 200 and a result code other than 1: the error is
the code and the message, the session is untouched, nothing is saved. -/
theorem auth_refused (conf : config) (authr : authResponse) (now : Int)
    (save : Option String) (hc : authr.ResultCode ≠ 1) :
    auth conf (.response 200 (.json authr)) now save =
      (conf, some (Itoa authr.ResultCode ++ ": " ++ authr.Message),
       [Effect.post (eufyAPIBase ++ "user/v2/email/login")
          { ClientID := eufyClientId, ClientSecret := eufyClientSecret,
            Email := conf.Email, Password := conf.Password }]) := by
  simp [auth, hc]

/-- A rejected login answer: an error, the session untouched, nothing saved. -/
theorem auth_rejected (conf : config) (reply : Reply authResponse) (now : Int)
    (save : Option String) (hrej : Reply.rejected authResponse.ResultCode reply) :
    ∃ err, auth conf reply now save =
      (conf, some err,
       [Effect.post (eufyAPIBase ++ "user/v2/email/login")
          { ClientID := eufyClientId, ClientSecret := eufyClientSecret,
            Email := conf.Email, Password := conf.Password }]) := by
  cases reply with
  | failed err => exact ⟨err, rfl⟩
  | response status b =>
    by_cases hs : status = 200
    · cases b with
      | readError err => exact ⟨err, by simp [auth, hs]⟩
      | parseError err => exact ⟨err, by simp [auth, hs]⟩
      | json v =>
        have hc : v.ResultCode ≠ 1 := by
          rcases hrej with h | h
          · exact absurd hs h
          · exact h
        subst hs
        exact ⟨_, auth_refused conf v now save hc⟩
    · exact ⟨"non-200 response from API", by simp [auth, hs]⟩

/-! ## The loop over the listed devices -/

theorem forDevices_cons_stop (env : FetchEnv) (i : Nat) (device : eufyDevice)
    (rest : List eufyDevice) (conf conf1 : config) (flow : Flow) (effects : List Effect)
    (h : forDevice conf device (env.history i) (env.now i) (env.save i) =
      (conf1, flow, effects))
    (hflow : flow ≠ Flow.next) :
    forDevices env i (device :: rest) conf = (conf1, flow, effects) := by
  cases flow with
  | next => exact absurd rfl hflow
  | fail err => simp only [forDevices, h]
  | panicked => simp only [forDevices, h]

theorem forDevices_cons_next (env : FetchEnv) (i : Nat) (device : eufyDevice)
    (rest : List eufyDevice) (conf conf1 : config) (effects : List Effect)
    (h : forDevice conf device (env.history i) (env.now i) (env.save i) =
      (conf1, Flow.next, effects)) :
    forDevices env i (device :: rest) conf =
      ((forDevices env (i + 1) rest conf1).1, (forDevices env (i + 1) rest conf1).2.1,
        effects ++ (forDevices env (i + 1) rest conf1).2.2) := by
  simp only [forDevices, h]

/-- The loop never touches the account fields. -/
theorem forDevices_frame (env : FetchEnv) (ds : List eufyDevice) :
    ∀ (i : Nat) (conf : config),
      (forDevices env i ds conf).1.Email = conf.Email ∧
      (forDevices env i ds conf).1.AccessToken = conf.AccessToken ∧
      (forDevices env i ds conf).1.Expires = conf.Expires := by
  induction ds with
  | nil => intro i conf; exact ⟨rfl, rfl, rfl⟩
  | cons d rest ih =>
    intro i conf
    have hf := forDevice_frame conf d (env.history i) (env.now i) (env.save i)
    rcases h : forDevice conf d (env.history i) (env.now i) (env.save i) with ⟨c1, e1, t1⟩
    rw [h] at hf
    by_cases hn : e1 = Flow.next
    · subst hn
      rw [forDevices_cons_next env i d rest conf c1 t1 h]
      obtain ⟨h1, h2, h3⟩ := ih (i + 1) c1
      exact ⟨h1.trans hf.1, h2.trans hf.2.1, h3.trans hf.2.2⟩
    · rw [forDevices_cons_stop env i d rest conf c1 e1 t1 h hn]; exact hf

/-- The cache entry of `id` after the loop: it is as before, unless some listed
device with that ID got a reply that passes every check and whose data list
starts with a data point, and then the entry is such a data point. -/
theorem forDevices_datum (env : FetchEnv) (id : String) (ds : List eufyDevice) :
    ∀ (i : Nat) (conf : config),
      (forDevices env i ds conf).1.datum id = conf.datum id ∨
      ∃ j d r p rest, ds[j]? = some d ∧ d.ID = id ∧
        env.history (i + j) = .response 200 (.json r) ∧ r.ResultCode = 1 ∧
        r.Data = some p :: rest ∧ (forDevices env i ds conf).1.datum id = some p := by
  induction ds with
  | nil => intro i conf; exact Or.inl rfl
  | cons d rest ih =>
    intro i conf
    have hf := forDevice_datum conf d (env.history i) (env.now i) (env.save i) id
    rcases h : forDevice conf d (env.history i) (env.now i) (env.save i) with ⟨c1, e1, t1⟩
    rw [h] at hf
    by_cases hn : e1 = Flow.next
    · subst hn
      rw [forDevices_cons_next env i d rest conf c1 t1 h]
      rcases ih (i + 1) c1 with h1 | ⟨j, d', r, p, tl, hj, hid, hr, hc, hd, hp⟩
      · rcases hf with hf | ⟨hid, r, p, tl, hr, hc, hd, hp⟩
        · exact Or.inl (h1.trans hf)
        · exact Or.inr ⟨0, d, r, p, tl, by simp, hid, by simpa using hr, hc, hd, h1.trans hp⟩
      · refine Or.inr ⟨j + 1, d', r, p, tl, by simpa using hj, hid, ?_, hc, hd, hp⟩
        rw [← hr]; congr 1; omega
    · rw [forDevices_cons_stop env i d rest conf c1 e1 t1 h hn]
      rcases hf with hf | ⟨hid, r, p, tl, hr, hc, hd, hp⟩
      · exact Or.inl hf
      · exact Or.inr ⟨0, d, r, p, tl, by simp, hid, by simpa using hr, hc, hd, hp⟩

/-- A pass that goes on to the next device had a request that could be built and
a reply that was not rejected. -/
theorem forDevice_next (conf : config) (device : eufyDevice) (reply : Reply dataResponse)
    (now : Int) (save : Option String) (c1 : config) (t1 : List Effect)
    (h : forDevice conf device reply now save = (c1, Flow.next, t1)) :
    urlParses (historyURL device.ID conf.LastCheck) = true ∧
    ∃ r, reply = .response 200 (.json r) ∧ r.ResultCode = 1 := by
  rcases forDevice_cases conf device reply now save with
    ⟨_, he⟩ | ⟨_, _, err, he⟩ | ⟨hb, hr⟩
  · rw [he] at h; simp at h
  · rw [he] at h; simp at h
  · exact ⟨hb, hr⟩

/-- A pass whose request can be built does not panic. -/
theorem forDevice_built (conf : config) (device : eufyDevice) (reply : Reply dataResponse)
    (now : Int) (save : Option String)
    (hb : urlParses (historyURL device.ID conf.LastCheck) = true) :
    (forDevice conf device reply now save).2.1 ≠ Flow.panicked := by
  rcases forDevice_cases conf device reply now save with
    ⟨hb', _⟩ | ⟨_, _, err, he⟩ | ⟨_, r, rfl, hc⟩
  · rw [hb] at hb'; cases hb'
  · rw [he]; simp
  · rw [forDevice_accepted conf device r now save hc hb]
    rcases hd : r.Data with _ | ⟨x, rest⟩
    · simp
    · cases x with
      | none => simp
      | some p => cases save <;> simp [Flow.ofError]

/-- A successful loop leaves, for a device that is not listed again further on,
the first data point of its reply in the cache. -/
theorem forDevices_new (env : FetchEnv) (ds : List eufyDevice) :
    ∀ (i : Nat) (conf : config) (k : Nat) (d : eufyDevice) (r : dataResponse)
      (p : eufyDataPoint) (rest : List (Option eufyDataPoint)),
      ds[k]? = some d → env.history (i + k) = .response 200 (.json r) →
      r.Data = some p :: rest →
      (∀ j d', k < j → ds[j]? = some d' → d'.ID ≠ d.ID) →
      (forDevices env i ds conf).2.1 = Flow.next →
      (forDevices env i ds conf).1.datum d.ID = some p := by
  induction ds with
  | nil => intro i conf k d r p rest hk; simp at hk
  | cons d0 tl ih =>
    intro i conf k d r p rest hk hr hd hlast hok
    rcases h : forDevice conf d0 (env.history i) (env.now i) (env.save i) with ⟨c1, e1, t1⟩
    by_cases hn : e1 = Flow.next
    · subst hn
      rw [forDevices_cons_next env i d0 tl conf c1 t1 h] at hok ⊢
      simp only at hok ⊢
      cases k with
      | zero =>
        have hd0 : d0 = d := by simpa using hk
        subst hd0
        have hr0 : env.history i = .response 200 (.json r) := by simpa using hr
        obtain ⟨hb, r', hr', hc'⟩ := forDevice_next conf d0 _ _ _ c1 t1 h
        have hrr : r' = r := by
          rw [hr0] at hr'
          simp only [Reply.response.injEq, Body.json.injEq, true_and] at hr'
          exact hr'.symm
        subst hrr
        rw [hr0, forDevice_accepted conf d0 r' (env.now i) (env.save i) hc' hb, hd] at h
        have hc1 : c1.datum d0.ID = some p := by
          have h1 := (Prod.mk.inj h).1
          rw [← h1]
          have := datum_setDatum conf d0.ID d0.ID p
          simpa using this
        rcases forDevices_datum env d0.ID tl (i + 1) c1 with h1 | ⟨j, d', _, _, _, hj, hid, _⟩
        · rw [h1]; exact hc1
        · exact absurd hid (hlast (j + 1) d' (Nat.succ_pos j) (by simpa using hj))
      | succ k =>
        refine ih (i + 1) c1 k d r p rest (by simpa using hk) ?_ hd ?_ hok
        · rw [← hr]; congr 1; omega
        · intro j d' hj hj'
          exact hlast (j + 1) d' (by omega) (by simpa using hj')
    · rw [forDevices_cons_stop env i d0 tl conf c1 e1 t1 h hn] at hok
      exact absurd hok hn

/-- A rejected history reply for a listed device, when the request of that device
and of every device before it can be built, makes the loop end with an error. -/
theorem forDevices_rejected (env : FetchEnv) (ds : List eufyDevice) :
    ∀ (i : Nat) (conf : config) (k : Nat) (d : eufyDevice),
      ds[k]? = some d → Reply.rejected dataResponse.ResultCode (env.history (i + k)) →
      (∀ j d' after, j ≤ k → ds[j]? = some d' → urlParses (historyURL d'.ID after) = true) →
      ∃ err, (forDevices env i ds conf).2.1 = Flow.fail err := by
  induction ds with
  | nil => intro i conf k d hk; simp at hk
  | cons d0 tl ih =>
    intro i conf k d hk hrej hbuilt
    have hb0 : urlParses (historyURL d0.ID conf.LastCheck) = true :=
      hbuilt 0 d0 conf.LastCheck (Nat.zero_le k) (by simp)
    have hnp := forDevice_built conf d0 (env.history i) (env.now i) (env.save i) hb0
    rcases h : forDevice conf d0 (env.history i) (env.now i) (env.save i) with ⟨c1, e1, t1⟩
    rw [h] at hnp
    cases e1 with
    | fail err =>
      rw [forDevices_cons_stop env i d0 tl conf c1 (Flow.fail err) t1 h (by simp)]
      exact ⟨err, rfl⟩
    | panicked => exact absurd rfl hnp
    | next =>
      rw [forDevices_cons_next env i d0 tl conf c1 t1 h]
      cases k with
      | zero =>
        exfalso
        obtain ⟨_, r, hr, hc⟩ := forDevice_next conf d0 _ _ _ c1 t1 h
        have hrej0 : Reply.rejected dataResponse.ResultCode (env.history i) := by
          simpa using hrej
        rw [hr] at hrej0
        rcases hrej0 with h1 | h1
        · exact h1 rfl
        · exact h1 hc
      | succ k =>
        have h2 : Reply.rejected dataResponse.ResultCode (env.history (i + 1 + k)) := by
          have e : i + 1 + k = i + (k + 1) := by omega
          rw [e]; exact hrej
        refine ih (i + 1) c1 k d (by simpa using hk) h2 ?_
        intro j d' after hj hj'
        exact hbuilt (j + 1) d' after (by omega) (by simpa using hj')

/-- The loop over `pre ++ post` is the loop over `pre` followed, when that went
through every device, by the loop over `post` on the session that `pre` left. -/
theorem forDevices_append (env : FetchEnv) (pre post : List eufyDevice) :
    ∀ (i : Nat) (conf : config),
      (forDevices env i pre conf).2.1 = Flow.next →
      forDevices env i (pre ++ post) conf =
        ((forDevices env (i + pre.length) post (forDevices env i pre conf).1).1,
         (forDevices env (i + pre.length) post (forDevices env i pre conf).1).2.1,
         (forDevices env i pre conf).2.2 ++
          (forDevices env (i + pre.length) post (forDevices env i pre conf).1).2.2) := by
  induction pre with
  | nil => intro i conf _; simp [forDevices]
  | cons d0 tl ih =>
    intro i conf hpre
    rcases h : forDevice conf d0 (env.history i) (env.now i) (env.save i) with ⟨c1, e1, t1⟩
    by_cases hn : e1 = Flow.next
    · subst hn
      rw [forDevices_cons_next env i d0 tl conf c1 t1 h] at hpre
      simp only at hpre
      rw [List.cons_append, forDevices_cons_next env i d0 (tl ++ post) conf c1 t1 h,
        forDevices_cons_next env i d0 tl conf c1 t1 h, ih (i + 1) c1 hpre]
      have e : i + 1 + tl.length = i + (d0 :: tl).length := by simp; omega
      rw [e]
      simp
    · rw [forDevices_cons_stop env i d0 tl conf c1 e1 t1 h hn] at hpre
      exact absurd hpre hn

/-! ## `getLatestData` as a whole -/

/-- A rejected device listing: an error, the session untouched, one request. -/
theorem getLatestData_rejected (conf : config) (env : FetchEnv)
    (h : Reply.rejected authResponse.ResultCode env.devices) :
    ∃ err, getLatestData conf env =
      (conf, .error err, [Effect.get (eufyAPIBase ++ "device") conf.AccessToken]) := by
  unfold getLatestData
  simp only [urlParses_listing, Bool.true_eq_false, if_false]
  cases hd : env.devices with
  | failed err => exact ⟨err, rfl⟩
  | response status b =>
    rw [hd] at h
    by_cases hs : status = 200
    · cases b with
      | readError err => exact ⟨err, by simp [hs]⟩
      | parseError err => exact ⟨err, by simp [hs]⟩
      | json v =>
        have hc : v.ResultCode ≠ 1 := by
          rcases h with h | h
          · exact absurd hs h
          · exact h
        exact ⟨Itoa v.ResultCode ++ ": " ++ v.Message, by simp [hs, hc]⟩
    · exact ⟨"non-200 status code for device listing", by simp [hs]⟩

/-- An accepted device listing: the call is the loop over the listed devices. -/
theorem getLatestData_accepted (conf : config) (env : FetchEnv) (body : authResponse)
    (hl : env.devices = .response 200 (.json body)) (hc : body.ResultCode = 1) :
    getLatestData conf env =
      ((forDevices env 0 body.Devices conf).1,
       (match (forDevices env 0 body.Devices conf).2.1 with
        | Flow.fail err => Fetched.error err
        | Flow.panicked => Fetched.panicked
        | Flow.next => Fetched.ok (forDevices env 0 body.Devices conf).1.LastDatum),
       Effect.get (eufyAPIBase ++ "device") conf.AccessToken ::
        (forDevices env 0 body.Devices conf).2.2) := by
  unfold getLatestData
  rw [hl]
  simp only [urlParses_listing, Bool.true_eq_false, hc, ne_eq, not_true_eq_false, if_false]
  rcases forDevices env 0 body.Devices conf with ⟨c1, e1, t1⟩
  cases e1 <;> rfl

/-- A call that returns a map had an accepted listing, ran the whole loop without
an error and returns the cache of the session. -/
theorem getLatestData_ok (conf : config) (env : FetchEnv) (m : Option DatumMap)
    (h : (getLatestData conf env).2.1 = .ok m) :
    ∃ body, env.devices = .response 200 (.json body) ∧ body.ResultCode = 1 ∧
      (forDevices env 0 body.Devices conf).2.1 = Flow.next ∧
      (getLatestData conf env).1 = (forDevices env 0 body.Devices conf).1 ∧
      m = (getLatestData conf env).1.LastDatum := by
  rcases reply_cases authResponse.ResultCode env.devices with hr | ⟨body, hl, hc⟩
  · obtain ⟨err, he⟩ := getLatestData_rejected conf env hr
    rw [he] at h
    simp at h
  · refine ⟨body, hl, hc, ?_⟩
    rw [getLatestData_accepted conf env body hl hc] at h ⊢
    cases he : (forDevices env 0 body.Devices conf).2.1 with
    | fail err => rw [he] at h; simp at h
    | panicked => rw [he] at h; simp at h
    | next =>
      rw [he] at h
      simp only [Fetched.ok.injEq] at h
      exact ⟨rfl, rfl, h.symm⟩

/-- The call never touches the account fields. -/
theorem getLatestData_frame (conf : config) (env : FetchEnv) :
    (getLatestData conf env).1.Email = conf.Email ∧
    (getLatestData conf env).1.AccessToken = conf.AccessToken ∧
    (getLatestData conf env).1.Expires = conf.Expires := by
  rcases reply_cases authResponse.ResultCode env.devices with hr | ⟨body, hl, hc⟩
  · obtain ⟨err, he⟩ := getLatestData_rejected conf env hr
    rw [he]; exact ⟨rfl, rfl, rfl⟩
  · rw [getLatestData_accepted conf env body hl hc]
    exact forDevices_frame env body.Devices 0 conf

/-- The cache entry of `id` after the call: as before, unless a listed device
with that ID got an accepted reply whose data list starts with a data point. -/
theorem getLatestData_datum (conf : config) (env : FetchEnv) (id : String) :
    (getLatestData conf env).1.datum id = conf.datum id ∨
    ∃ body j d r p rest, env.devices = .response 200 (.json body) ∧
      body.Devices[j]? = some d ∧ d.ID = id ∧
      env.history j = .response 200 (.json r) ∧ r.ResultCode = 1 ∧
      r.Data = some p :: rest ∧ (getLatestData conf env).1.datum id = some p := by
  rcases reply_cases authResponse.ResultCode env.devices with hr | ⟨body, hl, hc⟩
  · obtain ⟨err, he⟩ := getLatestData_rejected conf env hr
    rw [he]; exact Or.inl rfl
  · rw [getLatestData_accepted conf env body hl hc]
    rcases forDevices_datum env id body.Devices 0 conf with
      h | ⟨j, d, r, p, rest, hj, hid, hr, hrc, hd, hp⟩
    · exact Or.inl h
    · exact Or.inr ⟨body, j, d, r, p, rest, hl, hj, hid, by simpa using hr, hrc, hd, hp⟩

/-! ## The renderer -/

theorem mem_deviceLines (email id : String) (datum : eufyDataPoint) (l : MetricLine) :
    l ∈ deviceLines email id datum ↔
      ∃ metric, metric ∈ metricNames ∧ sprintV (datum.scaleValue metric) ≠ "0" ∧
        l = { metric := metric, deviceID := id, email := email,
              value := sprintV (datum.scaleValue metric) } := by
  unfold deviceLines
  rw [List.mem_filterMap]
  constructor
  · rintro ⟨metric, hm, h⟩
    by_cases hv : sprintV (datum.scaleValue metric) = "0"
    · simp [hv] at h
    · simp only [hv, if_false, Option.some.injEq] at h
      exact ⟨metric, hm, hv, h.symm⟩
  · rintro ⟨metric, hm, hv, rfl⟩
    exact ⟨metric, hm, by simp [hv]⟩

/-- The lines written for a map, whatever the order of the walk: the lines of
each of its entries. -/
theorem mem_renderEntries (email : String) (m : DatumMap)
    (range : DatumMap → List (Σ _ : String, eufyDataPoint)) (hrange : IsRange range)
    (l : MetricLine) :
    l ∈ renderEntries email (range m) ↔
      ∃ id datum, m.get id = some datum ∧ l ∈ deviceLines email id datum := by
  unfold renderEntries
  rw [List.mem_flatMap]
  constructor
  · rintro ⟨⟨id, datum⟩, he, hl⟩
    have he' : (⟨id, datum⟩ : Σ _ : String, eufyDataPoint) ∈ m.entries := (hrange m).mem_iff.1 he
    exact ⟨id, datum, Option.mem_def.1 (AList.mem_lookup_iff.2 he'), hl⟩
  · rintro ⟨id, datum, hg, hl⟩
    have he' : (⟨id, datum⟩ : Σ _ : String, eufyDataPoint) ∈ m.entries :=
      AList.mem_lookup_iff.1 (Option.mem_def.2 hg)
    exact ⟨⟨id, datum⟩, (hrange m).mem_iff.2 he', hl⟩

/-- The handler answers 500 and writes nothing when the fetch returns an error. -/
theorem metricsHandler_error (conf : config) (env : FetchEnv)
    (range : DatumMap → List (Σ _ : String, eufyDataPoint)) (err : String)
    (h : (getLatestData conf env).2.1 = .error err) :
    (metricsHandler conf env range).status = 500 ∧ (metricsHandler conf env range).writes = [] := by
  unfold metricsHandler
  rcases hg : getLatestData conf env with ⟨c1, res, t1⟩
  rw [hg] at h
  simp only at h
  subst h
  exact ⟨rfl, rfl⟩

/-- The session and the effects of a scrape are those of its `getLatestData`. -/
theorem metricsHandler_conf (conf : config) (env : FetchEnv)
    (range : DatumMap → List (Σ _ : String, eufyDataPoint)) :
    (metricsHandler conf env range).conf = (getLatestData conf env).1 ∧
    (metricsHandler conf env range).effects = (getLatestData conf env).2.2 := by
  unfold metricsHandler
  rcases hg : getLatestData conf env with ⟨c1, res, t1⟩
  cases res <;> exact ⟨rfl, rfl⟩

/-- The handler writes nothing when the fetch panics. -/
theorem metricsHandler_panicked (conf : config) (env : FetchEnv)
    (range : DatumMap → List (Σ _ : String, eufyDataPoint))
    (h : (getLatestData conf env).2.1 = .panicked) :
    (metricsHandler conf env range).status = 0 ∧ (metricsHandler conf env range).writes = [] := by
  unfold metricsHandler
  rcases hg : getLatestData conf env with ⟨c1, res, t1⟩
  rw [hg] at h
  simp only at h
  subst h
  exact ⟨rfl, rfl⟩

/-- The handler answers 200 and writes the lines of the returned map when the
fetch returns one. -/
theorem metricsHandler_ok (conf : config) (env : FetchEnv)
    (range : DatumMap → List (Σ _ : String, eufyDataPoint)) (data : Option DatumMap)
    (h : (getLatestData conf env).2.1 = .ok data) :
    (metricsHandler conf env range).status = 200 ∧
    (metricsHandler conf env range).writes =
      renderEntries (getLatestData conf env).1.Email (rangeOver range data) := by
  unfold metricsHandler
  rcases hg : getLatestData conf env with ⟨c1, res, t1⟩
  rw [hg] at h
  simp only at h
  subst h
  exact ⟨rfl, rfl⟩

/-- The lines of a scrape: none when the fetch fails, and otherwise the lines of
every entry of the cache that the fetch leaves. -/
theorem mem_writes (conf : config) (env : FetchEnv)
    (range : DatumMap → List (Σ _ : String, eufyDataPoint)) (hrange : IsRange range)
    (l : MetricLine) :
    l ∈ (metricsHandler conf env range).writes ↔
      (∃ m, (getLatestData conf env).2.1 = .ok m) ∧
      ∃ id datum, (getLatestData conf env).1.datum id = some datum ∧
        l ∈ deviceLines conf.Email id datum := by
  have hfr := (getLatestData_frame conf env).1
  cases hres : (getLatestData conf env).2.1 with
  | error err =>
    rw [(metricsHandler_error conf env range err hres).2]
    simp
  | panicked =>
    rw [(metricsHandler_panicked conf env range hres).2]
    simp
  | ok data =>
    obtain ⟨body, _, _, _, _, hm⟩ := getLatestData_ok conf env data hres
    rw [(metricsHandler_ok conf env range data hres).2, hfr]
    cases data with
    | none =>
      have : ∀ id, (getLatestData conf env).1.datum id = none := by
        intro id; unfold config.datum; rw [← hm]
      simp [renderEntries, rangeOver, this]
    | some m =>
      rw [rangeOver, mem_renderEntries conf.Email m range hrange l]
      have : ∀ id, (getLatestData conf env).1.datum id = m.get id := by
        intro id; unfold config.datum; rw [← hm]
      simp [this]

/-! ## The watermark and the devices before a failure -/

theorem drop_of_getElem? {α : Type} (ds : List α) :
    ∀ (k : Nat) (d : α), ds[k]? = some d → ds.drop k = d :: ds.drop (k + 1) ∧ k < ds.length := by
  induction ds with
  | nil => intro k d h; simp at h
  | cons x xs ih =>
    intro k d h
    cases k with
    | zero =>
      have : x = d := by simpa using h
      subst this
      simp
    | succ k =>
      obtain ⟨h1, h2⟩ := ih k d (by simpa using h)
      exact ⟨by simpa using h1, by simpa using h2⟩

/-- The watermark after one pass: as before, unless the reply passes every check
and its data list starts with a data point, and then it is the clock reading. -/
theorem forDevice_lastCheck (conf : config) (device : eufyDevice) (reply : Reply dataResponse)
    (now : Int) (save : Option String) :
    (forDevice conf device reply now save).1.LastCheck = conf.LastCheck ∨
    ∃ r p rest, reply = .response 200 (.json r) ∧ r.ResultCode = 1 ∧
      r.Data = some p :: rest ∧ (forDevice conf device reply now save).1.LastCheck = now := by
  rcases forDevice_cases conf device reply now save with
    ⟨_, he⟩ | ⟨_, _, err, he⟩ | ⟨hb, r, rfl, hr⟩
  · rw [he]; exact Or.inl rfl
  · rw [he]; exact Or.inl rfl
  · rw [forDevice_accepted conf device r now save hr hb]
    obtain ⟨a, b, c, d, e, m, g⟩ := conf
    rcases hd : r.Data with _ | ⟨x, rest⟩
    · cases m <;> exact Or.inl rfl
    · cases x with
      | none => exact Or.inl rfl
      | some p => exact Or.inr ⟨r, p, rest, rfl, hr, hd, rfl⟩

/-- The loop leaves the watermark alone when no listed device gets a data list
that starts with a data point. -/
theorem forDevices_lastCheck_same (env : FetchEnv) (ds : List eufyDevice) :
    ∀ (i : Nat) (conf : config),
      (∀ j d r p rest, ds[j]? = some d → env.history (i + j) = .response 200 (.json r) →
        r.Data ≠ some p :: rest) →
      (forDevices env i ds conf).1.LastCheck = conf.LastCheck := by
  induction ds with
  | nil => intro i conf _; rfl
  | cons d0 tl ih =>
    intro i conf hno
    have hf := forDevice_lastCheck conf d0 (env.history i) (env.now i) (env.save i)
    have hf' : (forDevice conf d0 (env.history i) (env.now i) (env.save i)).1.LastCheck =
        conf.LastCheck := by
      rcases hf with hf | ⟨r, p, rest, hr, _, hd, _⟩
      · exact hf
      · exact absurd hd (hno 0 d0 r p rest (by simp) (by simpa using hr))
    rcases h : forDevice conf d0 (env.history i) (env.now i) (env.save i) with ⟨c1, e1, t1⟩
    rw [h] at hf'
    by_cases hn : e1 = Flow.next
    · subst hn
      rw [forDevices_cons_next env i d0 tl conf c1 t1 h]
      refine (ih (i + 1) c1 ?_).trans hf'
      intro j d r p rest hj hr
      refine hno (j + 1) d r p rest (by simpa using hj) ?_
      rw [← hr]; congr 1; omega
    · rw [forDevices_cons_stop env i d0 tl conf c1 e1 t1 h hn]; exact hf'

/-- A successful loop leaves the clock reading of the last device that got a
data list starting with a data point as the watermark. -/
theorem forDevices_watermark (env : FetchEnv) (ds : List eufyDevice) :
    ∀ (i : Nat) (conf : config) (k : Nat) (d : eufyDevice) (r : dataResponse)
      (p : eufyDataPoint) (rest : List (Option eufyDataPoint)),
      ds[k]? = some d → env.history (i + k) = .response 200 (.json r) →
      r.Data = some p :: rest →
      (∀ j d' r' p' rest', k < j → ds[j]? = some d' →
        env.history (i + j) = .response 200 (.json r') → r'.Data ≠ some p' :: rest') →
      (forDevices env i ds conf).2.1 = Flow.next →
      (forDevices env i ds conf).1.LastCheck = env.now (i + k) := by
  induction ds with
  | nil => intro i conf k d r p rest hk; simp at hk
  | cons d0 tl ih =>
    intro i conf k d r p rest hk hr hd hlast hok
    rcases h : forDevice conf d0 (env.history i) (env.now i) (env.save i) with ⟨c1, e1, t1⟩
    by_cases hn : e1 = Flow.next
    · subst hn
      rw [forDevices_cons_next env i d0 tl conf c1 t1 h] at hok ⊢
      simp only at hok ⊢
      cases k with
      | zero =>
        have hr0 : env.history i = .response 200 (.json r) := by simpa using hr
        obtain ⟨hb, r', hr', hc'⟩ := forDevice_next conf d0 _ _ _ c1 t1 h
        have hrr : r' = r := by
          rw [hr0] at hr'
          simp only [Reply.response.injEq, Body.json.injEq, true_and] at hr'
          exact hr'.symm
        subst hrr
        rw [hr0, forDevice_accepted conf d0 r' (env.now i) (env.save i) hc' hb, hd] at h
        have hc1 : c1.LastCheck = env.now i := by
          have h1 := (Prod.mk.inj h).1
          rw [← h1]
        rw [forDevices_lastCheck_same env tl (i + 1) c1, hc1]
        · rfl
        · intro j d' r2 p' rest' hj hr2
          refine hlast (j + 1) d' r2 p' rest' (Nat.succ_pos j) (by simpa using hj) ?_
          rw [← hr2]; congr 1; omega
      | succ k =>
        have e : i + 1 + k = i + (k + 1) := by omega
        rw [← e]
        refine ih (i + 1) c1 k d r p rest (by simpa using hk) (by rw [e]; exact hr) hd ?_ hok
        intro j d' r' p' rest' hj hj' hr'
        refine hlast (j + 1) d' r' p' rest' (by omega) (by simpa using hj') ?_
        rw [← hr']; congr 1; omega
    · rw [forDevices_cons_stop env i d0 tl conf c1 e1 t1 h hn] at hok
      exact absurd hok hn

/-- A rejected history reply at position `k`, whose request can be built, after
the devices before it passed without an error: the loop ends with an error on the
session that those devices left. -/
theorem forDevices_stops_at (env : FetchEnv) (ds : List eufyDevice) (conf : config) (k : Nat)
    (d : eufyDevice) (hk : ds[k]? = some d)
    (hrej : Reply.rejected dataResponse.ResultCode (env.history k))
    (hb : ∀ after, urlParses (historyURL d.ID after) = true)
    (hpre : (forDevices env 0 (ds.take k) conf).2.1 = Flow.next) :
    (forDevices env 0 ds conf).1 = (forDevices env 0 (ds.take k) conf).1 := by
  obtain ⟨hdrop, hlen⟩ := drop_of_getElem? ds k d hk
  have hsplit : ds = ds.take k ++ d :: ds.drop (k + 1) := by
    rw [← hdrop, List.take_append_drop]
  have hlen' : (ds.take k).length = k := by
    rw [List.length_take]; omega
  have happ := forDevices_append env (ds.take k) (d :: ds.drop (k + 1)) 0 conf hpre
  rw [← hsplit, hlen', Nat.zero_add] at happ
  rw [happ]
  obtain ⟨err, he⟩ := forDevice_rejected (forDevices env 0 (ds.take k) conf).1 d
    (env.history k) (env.now k) (env.save k) hrej (hb _)
  rw [forDevices_cons_stop env k d (ds.drop (k + 1)) _ _ (Flow.fail err) _ he (by simp)]

/-! ## A walk in entry order is a walk -/

theorem inOrder_isRange : IsRange inOrder := fun _ => List.Perm.refl _

/-! ## Claims about `auth` -/

/-- C6: for a login answer with status 200 and result code 1 that carries the
token `t` and the lifetime `L`, received when the clock reads `now`, `auth` sets
the access token to `t` and the expiry to `now + L - 86400` computed in 64-bit
integers, which is exactly `now + L - 86400` whenever that number is an `int64`;
whatever the save returns.  With token `abc`, lifetime 90000: expiry `now + 3600`. -/
theorem auth_sets_token_and_expiry (conf : config) (authr : authResponse) (now : Int)
    (save : Option String) (hcode : authr.ResultCode = 1) :
    (auth conf (.response 200 (.json authr)) now save).1.AccessToken = authr.AccessToken ∧
    (auth conf (.response 200 (.json authr)) now save).1.Expires =
      wrapInt64 (now + authr.ExpiresIn - 86400) ∧
    (-(2 : Int) ^ 63 ≤ now + authr.ExpiresIn - 86400 →
      now + authr.ExpiresIn - 86400 < (2 : Int) ^ 63 →
      (auth conf (.response 200 (.json authr)) now save).1.Expires =
        now + authr.ExpiresIn - 86400) ∧
    (authr.AccessToken = "abc" → authr.ExpiresIn = 90000 →
      -(2 : Int) ^ 63 ≤ now + 3600 → now + 3600 < (2 : Int) ^ 63 →
      (auth conf (.response 200 (.json authr)) now save).1.AccessToken = "abc" ∧
      (auth conf (.response 200 (.json authr)) now save).1.Expires = now + 3600) := by
  have hexp : (auth conf (.response 200 (.json authr)) now save).1.Expires =
      wrapInt64 (now + authr.ExpiresIn - 86400) := by
    simp only [auth, hcode, ne_eq, not_true_eq_false, if_false, wrapInt64]
    omega
  have htok : (auth conf (.response 200 (.json authr)) now save).1.AccessToken =
      authr.AccessToken := by
    simp only [auth, hcode, ne_eq, not_true_eq_false, if_false]
  refine ⟨htok, hexp, ?_, ?_⟩
  · intro h1 h2
    rw [hexp]; unfold wrapInt64; omega
  · intro ht hl h1 h2
    refine ⟨htok.trans ht, ?_⟩
    rw [hexp, hl]; unfold wrapInt64; omega

theorem auth_sets_token_and_expiry_witness :
    (auth freshConf loginGranted 1700000000 none).1.AccessToken = "abc" ∧
    (auth freshConf loginGranted 1700000000 none).1.Expires = 1700003600 :=
  (auth_sets_token_and_expiry freshConf grantedBody 1700000000 none rfl).2.2.2 rfl rfl
    (by decide) (by decide)

/-- C7: a login answer with a result code other than 1 makes `auth` return the
error `<decimal code>: <message>`; that answer, a status other than 200, an
unparsable or unreadable body and a transport error all leave the whole session,
token and expiry included, as it was and make `auth` do nothing but the login
request: no save. -/
theorem auth_failure_leaves_session (conf : config) (now : Int) (save : Option String) :
    (∀ authr : authResponse, authr.ResultCode ≠ 1 →
      auth conf (.response 200 (.json authr)) now save =
        (conf, some (Itoa authr.ResultCode ++ ": " ++ authr.Message),
         [Effect.post (eufyAPIBase ++ "user/v2/email/login")
            { ClientID := eufyClientId, ClientSecret := eufyClientSecret,
              Email := conf.Email, Password := conf.Password }])) ∧
    (∀ reply : Reply authResponse, Reply.rejected authResponse.ResultCode reply →
      ∃ err, auth conf reply now save =
        (conf, some err,
         [Effect.post (eufyAPIBase ++ "user/v2/email/login")
            { ClientID := eufyClientId, ClientSecret := eufyClientSecret,
              Email := conf.Email, Password := conf.Password }])) ∧
    auth cachedConf loginRefused now save =
      (cachedConf, some "0: bad credentials",
       [Effect.post "https://home-api.eufylife.com/v1/user/v2/email/login"
          { ClientID := "eufy-app", ClientSecret := "8FHf22gaTKu7MZXqz5zytw",
            Email := "me@example.org", Password := "secret" }]) := by
  exact ⟨fun authr hc => auth_refused conf authr now save hc,
    fun reply hrej => auth_rejected conf reply now save hrej, rfl⟩

theorem auth_failure_leaves_session_witness :
    auth freshConf (.response 200 (.json lockedBody)) 5 none =
      (freshConf, some "-3: locked",
       [Effect.post (eufyAPIBase ++ "user/v2/email/login")
          { ClientID := eufyClientId, ClientSecret := eufyClientSecret,
            Email := "me@example.org", Password := "secret" }]) :=
  (auth_failure_leaves_session freshConf 5 none).1 lockedBody (by decide)

/-! ## Claims about the cache -/

/-- C1, as stated, fails: device `A` is listed, its history reply is accepted and
carries the non-empty data list `[null]`, the call returns the cache without an
error, and the entry cached for `A` is still the old data point, not the first
element of the list. -/
theorem null_first_element_keeps_old_entry :
    (envA [none]).devices = listing ["A"] ∧
    (envA [none]).history 0 = history [none] ∧
    (getLatestData cachedConf (envA [none])).2.1 =
      .ok (getLatestData cachedConf (envA [none])).1.LastDatum ∧
    (getLatestData cachedConf (envA [none])).1.datum "A" = some pointOld ∧
    (getLatestData cachedConf (envA [none])).1.datum "A" ≠ ([none] : List _).headD none :=
  ⟨rfl, rfl, rfl, rfl, fun h => Option.noConfusion (show some pointOld = none from h)⟩

/-- C1, amended: after a call of `getLatestData` that returns no error, for every
listed device that is not listed again further on and whose history reply carries
a data list that starts with a data point (not `null`), the entry cached for that
device ID is that data point. -/
theorem fetch_caches_first_data_point (conf : config) (env : FetchEnv) (body : authResponse)
    (m : Option DatumMap) (k : Nat) (d : eufyDevice) (r : dataResponse) (p : eufyDataPoint)
    (rest : List (Option eufyDataPoint))
    (hl : env.devices = .response 200 (.json body))
    (hok : (getLatestData conf env).2.1 = .ok m)
    (hk : body.Devices[k]? = some d)
    (hlast : ∀ j d', k < j → body.Devices[j]? = some d' → d'.ID ≠ d.ID)
    (hr : env.history k = .response 200 (.json r))
    (hd : r.Data = some p :: rest) :
    (getLatestData conf env).1.datum d.ID = some p := by
  obtain ⟨body', hl', hc, hnone, hconf, _⟩ := getLatestData_ok conf env m hok
  have hb : body' = body := by
    rw [hl] at hl'
    simp only [Reply.response.injEq, Body.json.injEq, true_and] at hl'
    exact hl'.symm
  subst hb
  rw [hconf]
  exact forDevices_new env body'.Devices 0 conf k d r p rest hk (by simpa using hr) hd hlast hnone

theorem fetch_caches_first_data_point_witness :
    (getLatestData cachedConf envAB).1.datum "A" = some pointA :=
  fetch_caches_first_data_point cachedConf envAB
    { ResultCode := 1, Message := "", AccessToken := "", ExpiresIn := 0,
      Devices := [⟨"A"⟩, ⟨"B"⟩] }
    (getLatestData cachedConf envAB).1.LastDatum 0 ⟨"A"⟩
    { ResultCode := 1, Message := "", Data := [some pointA] } pointA [] rfl rfl rfl
    (by
      intro j d' hj hd'
      match j, hj, hd' with
      | 1, _, hd' =>
        have e : d' = ⟨"B"⟩ := by simpa using hd'.symm
        rw [e]; decide
      | j + 2, _, hd' => simp at hd')
    rfl rfl

/-- C2: a device ID that the session holds a cached data point for, and for
which every history reply of the cycle carries an empty data list, has the same
cached data point after the call of `getLatestData` as before, whether the call
returns an error or not; and one pass of the loop whose reply carries an empty
list leaves every entry of the cache as it was. -/
theorem empty_reply_keeps_cache (conf : config) (env : FetchEnv) (id : String)
    (old : eufyDataPoint)
    (hcached : conf.datum id = some old)
    (hempty : ∀ body j d, env.devices = .response 200 (.json body) →
      body.Devices[j]? = some d → d.ID = id →
      ∃ status r, env.history j = .response status (.json r) ∧ r.Data = []) :
    (getLatestData conf env).1.datum id = some old ∧
    (∀ (c : config) (device : eufyDevice) (status : Int) (r : dataResponse) (now : Int)
      (save : Option String) (id' : String), r.Data = [] →
      (forDevice c device (.response status (.json r)) now save).1.datum id' = c.datum id') := by
  constructor
  · rcases getLatestData_datum conf env id with h | ⟨body, j, d, r, p, rest, hl, hj, hid, hr, _, hd, _⟩
    · rw [h]; exact hcached
    · obtain ⟨status, r', hr', hd'⟩ := hempty body j d hl hj hid
      rw [hr] at hr'
      simp only [Reply.response.injEq, Body.json.injEq] at hr'
      rw [hr'.2, hd'] at hd
      simp at hd
  · intro c device status r now save id' hd
    rcases forDevice_datum c device (.response status (.json r)) now save id' with
      h | ⟨_, r', p, rest, hr', _, hd', _⟩
    · exact h
    · simp only [Reply.response.injEq, Body.json.injEq] at hr'
      rw [← hr'.2, hd] at hd'
      simp at hd'

theorem empty_reply_keeps_cache_witness :
    (getLatestData cachedConf (envA [])).1.datum "A" = some pointOld :=
  (empty_reply_keeps_cache cachedConf (envA []) "A" pointOld rfl
    (fun _ _ _ _ _ _ => ⟨200, { ResultCode := 1, Message := "", Data := [] }, rfl, rfl⟩)).1

/-! ## Claims about failures of the fetch -/

theorem getElem?_take_some {α : Type} (ds : List α) (k i : Nat) (d : α)
    (h : (ds.take k)[i]? = some d) : i < k ∧ ds[i]? = some d := by
  by_cases hik : i < k
  · exact ⟨hik, by rw [← h, List.getElem?_take, if_pos hik]⟩
  · have : (ds.take k).length ≤ i := by
      rw [List.length_take]; omega
    rw [List.getElem?_eq_none this] at h
    simp at h

/-- A listed device whose ID makes the history URL unparsable: `http.NewRequest`
returns no request, the source uses it all the same, and the call panics after
the listing request; the scrape gets no response. -/
theorem unparsable_id_panics :
    urlParses (historyURL "%zz" 0) = false ∧
    (getLatestData freshConf envBadID).2.1 = Fetched.panicked ∧
    (getLatestData freshConf envBadID).2.2 =
      [Effect.get (eufyAPIBase ++ "device") "tok"] ∧
    (metricsHandler freshConf envBadID inOrder).status = 0 ∧
    (metricsHandler freshConf envBadID inOrder).writes = [] :=
  ⟨by decide, rfl, rfl, rfl, rfl⟩

/-- C8: when the device listing is accepted, the history call of the listed
device at position `k` is made (the request of that device and of every device
before it can be built, so none of them panics) and its reply is rejected
(transport error, status other than 200, unreadable or unparsable body, result
code other than 1), `getLatestData` returns an error and no map.  When the
devices before position `k` passed without an error, the session is left exactly
as those devices left it: the data point that such a device stored is still
cached and the clock reading of the last of them that stored one is still the
watermark.  A rejected device listing gives an error, the session as it was and
no further request. -/
theorem history_failure_keeps_earlier_updates (conf : config) (env : FetchEnv)
    (body : authResponse) (k : Nat) (d : eufyDevice)
    (hl : env.devices = .response 200 (.json body)) (hc : body.ResultCode = 1)
    (hk : body.Devices[k]? = some d)
    (hbuilt : ∀ j d' after, j ≤ k → body.Devices[j]? = some d' →
      urlParses (historyURL d'.ID after) = true)
    (hrej : Reply.rejected dataResponse.ResultCode (env.history k)) :
    (∃ err, (getLatestData conf env).2.1 = .error err) ∧
    ((forDevices env 0 (body.Devices.take k) conf).2.1 = Flow.next →
      (getLatestData conf env).1 = (forDevices env 0 (body.Devices.take k) conf).1 ∧
      ∀ j dj r p rest, j < k → body.Devices[j]? = some dj →
        env.history j = .response 200 (.json r) → r.Data = some p :: rest →
        ((∀ i d', j < i → i < k → body.Devices[i]? = some d' → d'.ID ≠ dj.ID) →
          (getLatestData conf env).1.datum dj.ID = some p) ∧
        ((∀ i r' p' rest', j < i → i < k → env.history i = .response 200 (.json r') →
            r'.Data ≠ some p' :: rest') →
          (getLatestData conf env).1.LastCheck = env.now j)) ∧
    (∀ (conf' : config) (env' : FetchEnv),
      Reply.rejected authResponse.ResultCode env'.devices →
      ∃ err, getLatestData conf' env' =
        (conf', .error err, [Effect.get (eufyAPIBase ++ "device") conf'.AccessToken])) := by
  refine ⟨?_, ?_, fun conf' env' h => getLatestData_rejected conf' env' h⟩
  · obtain ⟨err, he⟩ := forDevices_rejected env body.Devices 0 conf k d hk
      (by simpa using hrej) hbuilt
    refine ⟨err, ?_⟩
    rw [getLatestData_accepted conf env body hl hc]
    simp only [he]
  · intro hpre
    have hconf : (getLatestData conf env).1 = (forDevices env 0 (body.Devices.take k) conf).1 := by
      rw [getLatestData_accepted conf env body hl hc]
      exact forDevices_stops_at env body.Devices conf k d hk hrej
        (fun after => hbuilt k d after (Nat.le_refl k) hk) hpre
    refine ⟨hconf, ?_⟩
    intro j dj r p rest hjk hj hr hd
    have hj' : (body.Devices.take k)[j]? = some dj := by
      rw [List.getElem?_take, if_pos hjk]; exact hj
    constructor
    · intro hlast
      rw [hconf]
      refine forDevices_new env (body.Devices.take k) 0 conf j dj r p rest hj'
        (by simpa using hr) hd ?_ hpre
      intro i d' hji hi
      obtain ⟨hik, hi'⟩ := getElem?_take_some body.Devices k i d' hi
      exact hlast i d' hji hik hi'
    · intro hlast
      rw [hconf]
      have := forDevices_watermark env (body.Devices.take k) 0 conf j dj r p rest hj'
        (by simpa using hr) hd ?_ hpre
      · simpa using this
      · intro i d' r' p' rest' hji hi hr'
        obtain ⟨hik, _⟩ := getElem?_take_some body.Devices k i d' hi
        exact hlast i r' p' rest' hji hik (by simpa using hr')

theorem history_failure_keeps_earlier_updates_witness :
    (∃ err, (getLatestData freshConf envBFails).2.1 = .error err) ∧
    (getLatestData freshConf envBFails).1.datum "A" = some pointA ∧
    (getLatestData freshConf envBFails).1.LastCheck = 1700000100 :=
  have h := history_failure_keeps_earlier_updates freshConf envBFails
    { ResultCode := 1, Message := "", AccessToken := "", ExpiresIn := 0,
      Devices := [⟨"A"⟩, ⟨"B"⟩] } 1 ⟨"B"⟩ rfl rfl rfl
    (by
      intro j d' after _ hj
      match j, hj with
      | 0, hj =>
        have e : d' = ⟨"A"⟩ := by simpa using hj.symm
        rw [e]; exact urlParses_A after
      | 1, hj =>
        have e : d' = ⟨"B"⟩ := by simpa using hj.symm
        rw [e]; exact urlParses_B after
      | j + 2, hj => simp at hj)
    (Or.inl (by decide))
  have h2 := (h.2.1 rfl).2 0 ⟨"A"⟩ { ResultCode := 1, Message := "", Data := [some pointA] }
    pointA [] (by decide) rfl rfl rfl
  ⟨h.1, h2.1 (fun i _ h1 h2 => absurd h2 (by omega)),
    h2.2 (fun i _ _ _ h1 h2 => absurd h2 (by omega))⟩

/-! ## Claims about the renderer -/

/-- C4: for every measurement map, walked in any order, every device of the map
and every metric name (those of `metricNames` among them): when the `%v` text of
the measurement's value for that metric is exactly `0`, no line for that metric
and device is written, by the renderer and so by a scrape that renders the map. -/
theorem zero_text_has_no_line (email : String) (m : DatumMap)
    (range : DatumMap → List (Σ _ : String, eufyDataPoint)) (hrange : IsRange range)
    (id : String) (datum : eufyDataPoint) (metric : String)
    (hget : m.get id = some datum)
    (hzero : sprintV (datum.scaleValue metric) = "0") :
    (∀ l ∈ renderEntries email (range m), ¬ (l.metric = metric ∧ l.deviceID = id)) ∧
    (∀ (conf : config) (env : FetchEnv), (getLatestData conf env).2.1 = .ok (some m) →
      ∀ l ∈ (metricsHandler conf env range).writes, ¬ (l.metric = metric ∧ l.deviceID = id)) := by
  have key : ∀ e : String, ∀ l ∈ renderEntries e (range m),
      ¬ (l.metric = metric ∧ l.deviceID = id) := by
    intro e l hl
    obtain ⟨id', datum', hget', hl'⟩ := (mem_renderEntries e m range hrange l).1 hl
    obtain ⟨metric', _, hv, rfl⟩ := (mem_deviceLines e id' datum' _).1 hl'
    rintro ⟨h1, h2⟩
    simp only at h1 h2
    subst h1 h2
    rw [hget] at hget'
    simp only [Option.some.injEq] at hget'
    subst hget'
    exact hv hzero
  refine ⟨key email, ?_⟩
  intro conf env hok l hl
  rw [(metricsHandler_ok conf env range (some m) hok).2] at hl
  exact key _ l hl

theorem zero_text_has_no_line_witness :
    "bmi" ∈ metricNames ∧
    ∀ l ∈ renderEntries "me@example.org" (inOrder mapA), ¬ (l.metric = "bmi" ∧ l.deviceID = "A") :=
  ⟨by decide,
    (zero_text_has_no_line "me@example.org" mapA inOrder inOrder_isRange "A" pointA "bmi"
      rfl rfl).1⟩

/-- C9, as stated, fails: `bmr` is in `metricNames`, the measurement `pointA` has
no value for it, and the scrape writes a line for it, whose value is `<nil>`, not
a number. -/
theorem absent_metric_is_written_as_nil :
    "bmr" ∈ metricNames ∧ pointA.scaleValue "bmr" = none ∧
    (metricsHandler freshConf envAB inOrder).conf.datum "A" = some pointA ∧
    (metricsHandler freshConf envAB inOrder).writes.filter (fun l => l.metric = "bmr") =
      [{ metric := "bmr", deviceID := "A", email := "me@example.org", value := "<nil>" }] ∧
    ((metricsHandler freshConf envAB inOrder).writes.filter
        (fun l => l.metric = "bmr")).map MetricLine.text =
      ["eufylife_bmr\x7bdeviceID=\"A\",email=\"me@example.org\"\x7d <nil>\n"] :=
  ⟨by decide, rfl, rfl, rfl, rfl⟩

/-- C9, amended: the renderer filters exactly the values whose `%v` text is `0`.
For every measurement map, walked in any order, every device of it and every name
in `metricNames`: a value whose text is not `0` gets its line with that text; a
name without a value in the field map has the text `<nil>` and gets a line with
the value `<nil>`; and no written line has the value `0`. -/
theorem only_zero_text_is_filtered (email : String) (m : DatumMap)
    (range : DatumMap → List (Σ _ : String, eufyDataPoint)) (hrange : IsRange range)
    (id : String) (datum : eufyDataPoint) (metric : String)
    (hget : m.get id = some datum) (hmetric : metric ∈ metricNames) :
    (sprintV (datum.scaleValue metric) ≠ "0" →
      { metric := metric, deviceID := id, email := email,
        value := sprintV (datum.scaleValue metric) } ∈ renderEntries email (range m)) ∧
    (datum.scaleValue metric = none →
      { metric := metric, deviceID := id, email := email, value := "<nil>" } ∈
        renderEntries email (range m)) ∧
    (∀ l ∈ renderEntries email (range m), l.value ≠ "0") := by
  have h1 : sprintV (datum.scaleValue metric) ≠ "0" →
      ({ metric := metric, deviceID := id, email := email,
         value := sprintV (datum.scaleValue metric) } : MetricLine) ∈
        renderEntries email (range m) := by
    intro hv
    exact (mem_renderEntries email m range hrange _).2
      ⟨id, datum, hget, (mem_deviceLines email id datum _).2 ⟨metric, hmetric, hv, rfl⟩⟩
  refine ⟨h1, ?_, ?_⟩
  · intro hnone
    have := h1 (by rw [hnone]; decide)
    rw [hnone] at this
    exact this
  · intro l hl
    obtain ⟨id', datum', _, hl'⟩ := (mem_renderEntries email m range hrange l).1 hl
    obtain ⟨metric', _, hv, rfl⟩ := (mem_deviceLines email id' datum' _).1 hl'
    exact hv

theorem only_zero_text_is_filtered_witness :
    ({ metric := "bmr", deviceID := "A", email := "me@example.org", value := "<nil>" } :
      MetricLine) ∈ renderEntries "me@example.org" (inOrder mapA) :=
  (only_zero_text_is_filtered "me@example.org" mapA inOrder inOrder_isRange "A" pointA "bmr"
    rfl (by decide)).2.1 rfl

/-! ## Claims about what a scrape shows -/

theorem kerase_all_same (a : String) (es : List (Σ _ : String, eufyDataPoint))
    (hn : es.NodupKeys) (h : ∀ e ∈ es, e.1 = a) : es.kerase a = [] := by
  cases es with
  | nil => rfl
  | cons e tl =>
    have he : e.1 = a := h e (List.mem_cons_self _ _)
    rw [← he, List.kerase_cons_eq rfl]
    cases tl with
    | nil => rfl
    | cons e' tl' =>
      exfalso
      have he' : e'.1 = a := h e' (by simp)
      rw [List.nodupKeys_cons] at hn
      apply hn.1
      rw [he, ← he']
      simp [List.keys]

/-- The cache after `A` is stored in a session that caches nothing but `A`. -/
theorem entries_after_set (conf : config) (p : eufyDataPoint) (now : Int)
    (hcache : ∀ id, (conf.datum id).isSome → id = "A") :
    ∃ M : DatumMap,
      (({ conf.ensureLastDatum.setDatum "A" p with LastCheck := now } :
        config).ensureLastDatum).LastDatum = some M ∧ M.entries = [⟨"A", p⟩] := by
  obtain ⟨a, b, c, d, e, m, g⟩ := conf
  cases m with
  | none => exact ⟨_, rfl, rfl⟩
  | some m0 =>
    refine ⟨m0.insert "A" p, rfl, ?_⟩
    rw [AList.insert_entries, kerase_all_same "A" m0.entries m0.2]
    intro x hx
    apply hcache
    have : m0.lookup x.1 = some x.2 := Option.mem_def.1 (AList.mem_lookup_iff.2 hx)
    simp [config.datum, DatumMap.get, this]

theorem deviceLines_deviceID (email id : String) (datum : eufyDataPoint) (l : MetricLine)
    (h : l ∈ deviceLines email id datum) : l.deviceID = id := by
  obtain ⟨metric, _, _, rfl⟩ := (mem_deviceLines email id datum l).1 h
  rfl

theorem filter_metric_filterMap (f : String → Option MetricLine) (x : String)
    (hf : ∀ n l, f n = some l → l.metric = n) (ns : List String) :
    (ns.filterMap f).filter (fun l => l.metric = x) =
      (ns.filter fun n => n = x).filterMap f := by
  induction ns with
  | nil => rfl
  | cons n tl ih =>
    cases hn : f n with
    | none =>
      by_cases hx : n = x
      · subst hx
        simp only [List.filterMap_cons, hn, List.filter_cons, decide_True, if_true]
        exact ih
      · simp [List.filterMap_cons, hn, ih, hx, List.filter_cons]
    | some l =>
      have hl := hf n l hn
      by_cases hx : n = x
      · subst hx
        simp [List.filterMap_cons, hn, ih, List.filter_cons, hl]
      · have hlx : ¬ l.metric = x := by rw [hl]; exact hx
        simp [List.filterMap_cons, hn, ih, List.filter_cons, hx, hlx]

/-- The `weight` lines of a data point whose weight is 70.5: one line. -/
theorem deviceLines_weight (email id : String) (p : eufyDataPoint)
    (hw : p.scaleValue "weight" = some weight705) :
    (deviceLines email id p).filter (fun l => l.metric = "weight") =
      [{ metric := "weight", deviceID := id, email := email, value := "70.5" }] := by
  have hv : sprintV (some weight705) = "70.5" := by decide
  have hn : (metricNames.filter fun n => n = "weight") = ["weight"] := by decide
  unfold deviceLines
  rw [filter_metric_filterMap _ "weight" _ metricNames, hn]
  · simp [hw, hv]
  · intro n l h
    by_cases hz : sprintV (p.scaleValue n) = "0"
    · simp [hz] at h
    · simp only [hz, if_false, Option.some.injEq] at h
      rw [← h]

/-- C5: when the session caches nothing for a device ID and every history reply
of the cycle for that ID carries an empty data list, the scrape writes no line for
that device.  In particular, when `A` and `B` are listed, `A` answers with a data
point of weight 70.5, which is saved, `B` answers with an empty list, and the
session caches nothing for `B` (nor for any device but `A`), the scrape answers
200, writes exactly one `weight` line, for device `A` with value `70.5`, and no
line for `B`. -/
theorem uncached_empty_device_has_no_line (conf : config) (env : FetchEnv)
    (range : DatumMap → List (Σ _ : String, eufyDataPoint)) (hrange : IsRange range) :
    (∀ id : String, conf.datum id = none →
      (∀ body j d, env.devices = .response 200 (.json body) →
        body.Devices[j]? = some d → d.ID = id →
        ∃ status r, env.history j = .response status (.json r) ∧ r.Data = []) →
      ∀ l ∈ (metricsHandler conf env range).writes, l.deviceID ≠ id) ∧
    (∀ (body : authResponse) (rA rB : dataResponse) (p : eufyDataPoint)
      (rest : List (Option eufyDataPoint)),
      env.devices = .response 200 (.json body) → body.ResultCode = 1 →
      body.Devices = [⟨"A"⟩, ⟨"B"⟩] →
      env.history 0 = .response 200 (.json rA) → rA.ResultCode = 1 →
      rA.Data = some p :: rest → p.scaleValue "weight" = some weight705 →
      env.save 0 = none →
      env.history 1 = .response 200 (.json rB) → rB.ResultCode = 1 → rB.Data = [] →
      (∀ id, (conf.datum id).isSome → id = "A") →
      (metricsHandler conf env range).status = 200 ∧
      (metricsHandler conf env range).writes.filter (fun l => l.metric = "weight") =
        [{ metric := "weight", deviceID := "A", email := conf.Email, value := "70.5" }] ∧
      ∀ l ∈ (metricsHandler conf env range).writes, l.deviceID ≠ "B") := by
  constructor
  · intro id hnone hempty l hl
    obtain ⟨_, id', datum, hd, hl'⟩ := (mem_writes conf env range hrange l).1 hl
    rw [deviceLines_deviceID conf.Email id' datum l hl']
    rintro rfl
    rcases getLatestData_datum conf env id' with
      h | ⟨body, j, d, r, p, rest, hlist, hj, hid, hr, _, hdata, _⟩
    · rw [h, hnone] at hd
      simp at hd
    · obtain ⟨status, r', hr', hd'⟩ := hempty body j d hlist hj hid
      rw [hr] at hr'
      simp only [Reply.response.injEq, Body.json.injEq] at hr'
      rw [hr'.2, hd'] at hdata
      simp at hdata
  · intro body rA rB p rest hl hc hdev hA hcA hdA hw hsave hB hcB hdB hcache
    have step1 : forDevice conf ⟨"A"⟩ (env.history 0) (env.now 0) (env.save 0) =
        ({ conf.ensureLastDatum.setDatum "A" p with LastCheck := env.now 0 }, Flow.next,
          [Effect.get (historyURL "A" conf.LastCheck) conf.AccessToken,
           Effect.writeFile configPath
            { conf.ensureLastDatum.setDatum "A" p with LastCheck := env.now 0 }]) := by
      rw [hA, forDevice_accepted conf ⟨"A"⟩ rA (env.now 0) (env.save 0) hcA
        (urlParses_A conf.LastCheck), hdA, hsave]
      rfl
    obtain ⟨M, hM, hentries⟩ := entries_after_set conf p (env.now 0) hcache
    have step2 : ∀ c : config, forDevice c ⟨"B"⟩ (env.history 1) (env.now 1) (env.save 1) =
        (c.ensureLastDatum, Flow.next,
          [Effect.get (historyURL "B" c.LastCheck) c.AccessToken]) := by
      intro c
      rw [hB, forDevice_accepted c ⟨"B"⟩ rB (env.now 1) (env.save 1) hcB
        (urlParses_B c.LastCheck), hdB]
    have hloop : (forDevices env 0 body.Devices conf).1.LastDatum = some M ∧
        (forDevices env 0 body.Devices conf).2.1 = Flow.next := by
      rw [hdev, forDevices_cons_next env 0 ⟨"A"⟩ [⟨"B"⟩] conf _ _ step1,
        forDevices_cons_next env 1 ⟨"B"⟩ [] _ _ _ (step2 _)]
      exact ⟨hM, rfl⟩
    have hres : (getLatestData conf env).2.1 = .ok (some M) := by
      rw [getLatestData_accepted conf env body hl hc]
      simp only [hloop.2, hloop.1]
    obtain ⟨hstatus, hwrites⟩ := metricsHandler_ok conf env range (some M) hres
    have hrangeM : range M = [⟨"A", p⟩] := by
      have := hrange M
      rw [hentries] at this
      exact List.perm_singleton.1 this
    have hw' : (metricsHandler conf env range).writes = deviceLines conf.Email "A" p := by
      rw [hwrites, (getLatestData_frame conf env).1]
      simp [rangeOver, hrangeM, renderEntries]
    refine ⟨hstatus, ?_, ?_⟩
    · rw [hw']; exact deviceLines_weight conf.Email "A" p hw
    · intro l hl
      rw [hw'] at hl
      rw [deviceLines_deviceID conf.Email "A" p l hl]
      decide

theorem uncached_empty_device_has_no_line_witness :
    (metricsHandler freshConf envAB inOrder).status = 200 ∧
    (metricsHandler freshConf envAB inOrder).writes.filter (fun l => l.metric = "weight") =
      [{ metric := "weight", deviceID := "A", email := "me@example.org", value := "70.5" }] ∧
    (∀ l ∈ (metricsHandler freshConf envAB inOrder).writes, l.deviceID ≠ "B") ∧
    MetricLine.text { metric := "weight", deviceID := "A", email := "me@example.org",
                      value := "70.5" } =
      "eufylife_weight\x7bdeviceID=\"A\",email=\"me@example.org\"\x7d 70.5\n" :=
  have h := (uncached_empty_device_has_no_line freshConf envAB inOrder inOrder_isRange).2
    { ResultCode := 1, Message := "", AccessToken := "", ExpiresIn := 0,
      Devices := [⟨"A"⟩, ⟨"B"⟩] }
    { ResultCode := 1, Message := "", Data := [some pointA] }
    { ResultCode := 1, Message := "", Data := [] } pointA []
    rfl rfl rfl rfl rfl rfl rfl rfl rfl rfl rfl
    (fun id h => by simp [freshConf, config.datum] at h)
  ⟨h.1, h.2.1, h.2.2, by decide⟩

/-- C10: the map that a successful `getLatestData` returns is the cache of the
session, and the lines of the scrape are the lines of every entry of that cache.
A device ID cached before the call is cached after it; when no listed device has
that ID its entry is the same data point and its lines are written all the same.
An ID that was not cached and is cached afterwards is the ID of a listed device
whose accepted history reply carries a non-empty data list. -/
theorem returned_map_is_whole_cache (conf : config) (env : FetchEnv)
    (range : DatumMap → List (Σ _ : String, eufyDataPoint)) (hrange : IsRange range)
    (m : Option DatumMap) (hok : (getLatestData conf env).2.1 = .ok m) :
    m = (getLatestData conf env).1.LastDatum ∧
    (∀ l, l ∈ (metricsHandler conf env range).writes ↔
      ∃ id datum, (getLatestData conf env).1.datum id = some datum ∧
        l ∈ deviceLines conf.Email id datum) ∧
    (∀ id, (conf.datum id).isSome → ((getLatestData conf env).1.datum id).isSome) ∧
    (∀ id old, conf.datum id = some old →
      (∀ (body : authResponse) (j : Nat) (d : eufyDevice),
        env.devices = .response 200 (.json body) → body.Devices[j]? = some d → d.ID ≠ id) →
      (getLatestData conf env).1.datum id = some old ∧
      ∀ l ∈ deviceLines conf.Email id old, l ∈ (metricsHandler conf env range).writes) ∧
    (∀ id, conf.datum id = none → ((getLatestData conf env).1.datum id).isSome →
      ∃ body j d r x rest, env.devices = .response 200 (.json body) ∧
        body.Devices[j]? = some d ∧ d.ID = id ∧
        env.history j = .response 200 (.json r) ∧ r.Data = x :: rest) := by
  obtain ⟨_, _, _, _, _, hm⟩ := getLatestData_ok conf env m hok
  have hw : ∀ l, l ∈ (metricsHandler conf env range).writes ↔
      ∃ id datum, (getLatestData conf env).1.datum id = some datum ∧
        l ∈ deviceLines conf.Email id datum := by
    intro l
    rw [mem_writes conf env range hrange l]
    exact ⟨fun h => h.2, fun h => ⟨⟨m, hok⟩, h⟩⟩
  refine ⟨hm, hw, ?_, ?_, ?_⟩
  · intro id hid
    rcases getLatestData_datum conf env id with h | ⟨_, _, _, _, p, _, _, _, _, _, _, _, hp⟩
    · rw [h]; exact hid
    · rw [hp]; rfl
  · intro id old hold hunlisted
    have hsame : (getLatestData conf env).1.datum id = some old := by
      rcases getLatestData_datum conf env id with h | ⟨body, j, d, _, _, _, hl, hj, hid, _⟩
      · rw [h]; exact hold
      · exact absurd hid (hunlisted body j d hl hj)
    exact ⟨hsame, fun l hl => (hw l).2 ⟨id, old, hsame, hl⟩⟩
  · intro id hnone hsome
    rcases getLatestData_datum conf env id with
      h | ⟨body, j, d, r, p, rest, hl, hj, hid, hr, _, hd, _⟩
    · rw [h, hnone] at hsome
      simp at hsome
    · exact ⟨body, j, d, r, some p, rest, hl, hj, hid, hr, hd⟩

theorem returned_map_is_whole_cache_witness :
    (getLatestData cachedConf envOnlyB).1.datum "A" = some pointOld ∧
    ({ metric := "weight", deviceID := "A", email := "me@example.org", value := "69" } :
      MetricLine) ∈ (metricsHandler cachedConf envOnlyB inOrder).writes :=
  have h := (returned_map_is_whole_cache cachedConf envOnlyB inOrder inOrder_isRange
    (getLatestData cachedConf envOnlyB).1.LastDatum rfl).2.2.2.1 "A" pointOld rfl
    (by
      intro body j d hl hj
      have hb : body.Devices = [⟨"B"⟩] := by
        have : (listing ["B"]) = Reply.response 200 (Body.json body) := hl
        simp only [listing, Reply.response.injEq, Body.json.injEq, true_and] at this
        rw [← this]; rfl
      rw [hb] at hj
      match j, hj with
      | 0, hj =>
        have e : d = ⟨"B"⟩ := by simpa using hj.symm
        rw [e]; decide
      | j + 1, hj => simp at hj)
  ⟨h.1, h.2 _ (by
    rw [mem_deviceLines]
    exact ⟨"weight", by decide, by decide, rfl⟩)⟩

/-! ## Claims about the token -/

theorem forDevice_effects (conf : config) (device : eufyDevice) (reply : Reply dataResponse)
    (now : Int) (save : Option String) :
    ∀ e ∈ (forDevice conf device reply now save).2.2, Effect.fetchesWith conf.AccessToken e := by
  rcases forDevice_cases conf device reply now save with
    ⟨_, he⟩ | ⟨_, _, err, he⟩ | ⟨hb, r, rfl, hr⟩
  · rw [he]; intro e hmem; simp at hmem
  · rw [he]
    intro e hmem
    simp only [List.mem_singleton] at hmem
    subst hmem
    rfl
  · rw [forDevice_accepted conf device r now save hr hb]
    rcases hd : r.Data with _ | ⟨x, rest⟩
    · intro e hmem
      simp only [List.mem_singleton] at hmem
      subst hmem
      rfl
    · cases x with
      | none =>
        intro e hmem
        simp only [List.mem_singleton] at hmem
        subst hmem
        rfl
      | some p =>
        intro e hmem
        simp only [List.mem_cons, List.mem_singleton, List.not_mem_nil, or_false] at hmem
        rcases hmem with rfl | rfl
        · rfl
        · trivial

theorem forDevices_effects (env : FetchEnv) (ds : List eufyDevice) :
    ∀ (i : Nat) (conf : config),
      ∀ e ∈ (forDevices env i ds conf).2.2, Effect.fetchesWith conf.AccessToken e := by
  induction ds with
  | nil => intro i conf e hmem; simp [forDevices] at hmem
  | cons d rest ih =>
    intro i conf
    have hf := forDevice_effects conf d (env.history i) (env.now i) (env.save i)
    have hfr := (forDevice_frame conf d (env.history i) (env.now i) (env.save i)).2.1
    rcases h : forDevice conf d (env.history i) (env.now i) (env.save i) with ⟨c1, e1, t1⟩
    rw [h] at hf hfr
    by_cases hn : e1 = Flow.next
    · subst hn
      rw [forDevices_cons_next env i d rest conf c1 t1 h]
      intro e hmem
      rcases List.mem_append.1 hmem with hmem | hmem
      · exact hf e hmem
      · have := ih (i + 1) c1 e hmem
        rw [hfr] at this
        exact this
    · rw [forDevices_cons_stop env i d rest conf c1 e1 t1 h hn]; exact hf

/-- A fetch never logs in; its first request is the device listing and every
request carries the token of the session. -/
theorem getLatestData_effects (conf : config) (env : FetchEnv) :
    (∀ e ∈ (getLatestData conf env).2.2, Effect.fetchesWith conf.AccessToken e) ∧
    (getLatestData conf env).2.2.head? =
      some (Effect.get (eufyAPIBase ++ "device") conf.AccessToken) := by
  rcases reply_cases authResponse.ResultCode env.devices with hr | ⟨body, hl, hc⟩
  · obtain ⟨err, he⟩ := getLatestData_rejected conf env hr
    rw [he]
    refine ⟨?_, rfl⟩
    intro e hmem
    simp only [List.mem_singleton] at hmem
    subst hmem
    rfl
  · rw [getLatestData_accepted conf env body hl hc]
    refine ⟨?_, rfl⟩
    intro e hmem
    simp only [List.mem_cons] at hmem
    rcases hmem with rfl | hmem
    · rfl
    · exact forDevices_effects env body.Devices 0 conf e hmem

/-- C3, as stated, fails.  The session `freshConf` holds a token whose expiry
(1000) is before the clock of the scrape (1700000100): the scrape makes no login
request, sends the device listing with that token as its first request and
answers 200.  The session `noTokenConf` holds the empty token: the scrape makes no
login request and sends the device listing with the empty token. -/
theorem scrape_fetches_with_stale_token :
    freshConf.Expires < envAB.now 0 ∧
    (metricsHandler freshConf envAB inOrder).effects.map Effect.isPost =
      [false, false, false, false] ∧
    (metricsHandler freshConf envAB inOrder).effects.head? =
      some (Effect.get "https://home-api.eufylife.com/v1/device" "tok") ∧
    (metricsHandler freshConf envAB inOrder).status = 200 ∧
    noTokenConf.AccessToken = "" ∧
    (metricsHandler noTokenConf envAB inOrder).effects.map Effect.isPost =
      [false, false, false, false] ∧
    (metricsHandler noTokenConf envAB inOrder).effects.head? =
      some (Effect.get "https://home-api.eufylife.com/v1/device" "") :=
  ⟨by decide, rfl, rfl, rfl, rfl, rfl, rfl⟩

/-- C3, amended: the token is checked when the process starts, not on a scrape.
In `main`, when the access token is empty or the expiry is not after the clock,
the login request is the first thing done; when the login reply is rejected the
process ends in `log.Fatal` having done nothing but that request, so nothing is
written to the session file, and `auth` leaves the token and the expiry as they
were.  The `/metrics` handler never logs in: its first request is the device
listing, every request of the scrape carries the token that the session holds,
whatever its expiry, the scrape leaves token and expiry as they are, and a fetch
that returns an error gives the 500 response with nothing written. -/
theorem token_is_checked_at_startup_only (conf : config) (now authNow : Int)
    (login : Reply authResponse) (save : Option String)
    (hstale : conf.AccessToken = "" ∨ conf.Expires ≤ now) :
    (main (.ok conf) now login authNow save).2.head? =
      some (Effect.post (eufyAPIBase ++ "user/v2/email/login")
        { ClientID := eufyClientId, ClientSecret := eufyClientSecret,
          Email := conf.Email, Password := conf.Password }) ∧
    (Reply.rejected authResponse.ResultCode login →
      (∃ err, main (.ok conf) now login authNow save =
        (.fatal err, [Effect.post (eufyAPIBase ++ "user/v2/email/login")
          { ClientID := eufyClientId, ClientSecret := eufyClientSecret,
            Email := conf.Email, Password := conf.Password }])) ∧
      (auth conf login authNow save).1 = conf) ∧
    (∀ (env : FetchEnv) (range : DatumMap → List (Σ _ : String, eufyDataPoint)),
      (∀ e ∈ (metricsHandler conf env range).effects, Effect.fetchesWith conf.AccessToken e) ∧
      (metricsHandler conf env range).effects.head? =
        some (Effect.get (eufyAPIBase ++ "device") conf.AccessToken) ∧
      (metricsHandler conf env range).conf.AccessToken = conf.AccessToken ∧
      (metricsHandler conf env range).conf.Expires = conf.Expires ∧
      (∀ err, (getLatestData conf env).2.1 = .error err →
        (metricsHandler conf env range).status = 500 ∧
        (metricsHandler conf env range).writes = [])) := by
  have hcond : conf.AccessToken = "" ∨ now ≥ conf.Expires := hstale
  refine ⟨?_, ?_, ?_⟩
  · simp only [main, hcond, if_true]
    rcases reply_cases authResponse.ResultCode login with hr | ⟨authr, rfl, hc⟩
    · obtain ⟨err, he⟩ := (auth_rejected conf login authNow save hr)
      rw [he]; rfl
    · simp only [auth, hc, ne_eq, not_true_eq_false, if_false, saveConfig]
      cases save <;> rfl
  · intro hr
    obtain ⟨err, he⟩ := (auth_rejected conf login authNow save hr)
    refine ⟨⟨err, ?_⟩, by rw [he]⟩
    simp only [main, hcond, if_true, he]
  · intro env range
    obtain ⟨hc, he⟩ := metricsHandler_conf conf env range
    obtain ⟨h1, h2⟩ := getLatestData_effects conf env
    obtain ⟨_, h3, h4⟩ := getLatestData_frame conf env
    rw [hc, he]
    exact ⟨h1, h2, h3, h4, fun err herr => metricsHandler_error conf env range err herr⟩

theorem token_is_checked_at_startup_only_witness :
    (main (.ok freshConf) 1700000000 loginRefused 1700000001 none).2.map Effect.isPost =
      [true] ∧
    (∃ err, main (.ok freshConf) 1700000000 loginRefused 1700000001 none =
      (.fatal err, [Effect.post (eufyAPIBase ++ "user/v2/email/login")
        { ClientID := eufyClientId, ClientSecret := eufyClientSecret,
          Email := "me@example.org", Password := "secret" }])) :=
  have h := token_is_checked_at_startup_only freshConf 1700000000 1700000001 loginRefused none
    (Or.inr (by decide))
  ⟨rfl, (h.2.1 (Or.inr (by decide))).1⟩
end Eufylife
